import Mathlib

/-! IPFIX options decoder (`main.go`, `models.go`)

A shallow embedding of the Go decoder for IPFIX Options Template Sets and
Options Data Sets, and theorems about it.

Conventions of the embedding:

* a Go `[]byte` is a `ByteSlice`: the `len` visible elements plus the part of
  the backing array between `len` and `cap`.  A slice expression `s[lo:hi]`
  is checked against `cap`, an index `s[i]` and the default upper bound of
  `s[lo:]` against `len`, as in the Go language specification;
* a run-time panic (index or slice bound out of range) is the value `none`
  of the outer `Option`; every decoder function returns `Option _`;
* a nil map returned as `Options` is the value `none` of the inner
  `Option Options`;
* the template cache is passed in and returned explicitly;
* `uint16`/`uint32`/`uint64` values are natural numbers; the only arithmetic
  that can wrap (`FieldCount - ScopeFieldCount`) is reduced modulo `2^16`;
* calls to the logger have no effect on the result and are left out.
-/

namespace Ipfix

/-! ## Bytes and slices -/

/-- One byte. -/
abbrev Byte := Fin 256

/-- A Go `[]byte`: `elems` are the elements `s[0] .. s[len-1]`, `spare` the
elements of the backing array from `len` up to `cap`. -/
structure ByteSlice where
  elems : List Byte
  spare : List Byte
  deriving DecidableEq, Repr

namespace ByteSlice

/-- Go `len(s)`. -/
def len (s : ByteSlice) : Nat := s.elems.length

/-- Go `cap(s)`. -/
def cap (s : ByteSlice) : Nat := s.elems.length + s.spare.length

/-- A slice whose capacity equals its length, such as a `[]byte{...}` literal. -/
def ofList (l : List Byte) : ByteSlice := ⟨l, []⟩

/-- Go `s[lo:hi]`: panics unless `lo <= hi <= cap(s)`. -/
def slice (s : ByteSlice) (lo hi : Nat) : Option ByteSlice :=
  if lo ≤ hi ∧ hi ≤ s.cap then
    some ⟨((s.elems ++ s.spare).take hi).drop lo, (s.elems ++ s.spare).drop hi⟩
  else none

/-- Go `s[:hi]`: panics unless `hi <= cap(s)`. -/
def sliceTo (s : ByteSlice) (hi : Nat) : Option ByteSlice := s.slice 0 hi

/-- Go `s[lo:]`: the upper bound is `len(s)`; panics unless `lo <= len(s)`. -/
def sliceFrom (s : ByteSlice) (lo : Nat) : Option ByteSlice :=
  if lo ≤ s.len then some ⟨s.elems.drop lo, s.spare⟩ else none

/-- Go `s[i]`: panics unless `i < len(s)`. -/
def index (s : ByteSlice) (i : Nat) : Option Byte := s.elems.get? i

end ByteSlice

/-! ## `encoding/binary`, big endian -/

/-- Go `binary.BigEndian.Uint16(b)`: panics when `len(b) < 2`, otherwise the
big-endian value of `b[0], b[1]`. -/
def Uint16 (b : ByteSlice) : Option Nat :=
  match b.elems with
  | b0 :: b1 :: _ => some (b0.val * 2 ^ 8 + b1.val)
  | _ => none

/-- Go `binary.BigEndian.Uint32(b)`: panics when `len(b) < 4`, otherwise the
big-endian value of `b[0] .. b[3]`. -/
def Uint32 (b : ByteSlice) : Option Nat :=
  match b.elems with
  | b0 :: b1 :: b2 :: b3 :: _ =>
      some (b0.val * 2 ^ 24 + b1.val * 2 ^ 16 + b2.val * 2 ^ 8 + b3.val)
  | _ => none

/-- Go `binary.BigEndian.Uint64(b)`: panics when `len(b) < 8`, otherwise the
big-endian value of `b[0] .. b[7]`. -/
def Uint64 (b : ByteSlice) : Option Nat :=
  match b.elems with
  | b0 :: b1 :: b2 :: b3 :: b4 :: b5 :: b6 :: b7 :: _ =>
      some (b0.val * 2 ^ 56 + b1.val * 2 ^ 48 + b2.val * 2 ^ 40 + b3.val * 2 ^ 32
        + b4.val * 2 ^ 24 + b5.val * 2 ^ 16 + b6.val * 2 ^ 8 + b7.val)
  | _ => none

/-- Go conversion `int64(x)` of a `uint64`: the two's complement reading. -/
def toInt64 (x : Nat) : Int :=
  if x % 2 ^ 64 < 2 ^ 63 then (x % 2 ^ 64 : Nat) else ((x % 2 ^ 64 : Nat) : Int) - 2 ^ 64

/-! ## `models.go` -/

/-- Go `IpfixHeader`. -/
structure IpfixHeader where
  Version : Nat
  MessageLength : Nat
  ExportTime : Nat
  SequenceNumber : Nat
  DomainId : Nat
  SetId : Nat
  deriving DecidableEq, Repr

/-- Go `TemplateField`. -/
structure TemplateField where
  ElementId : Nat
  Length : Nat
  EnterpriseNumber : Nat
  deriving DecidableEq, Repr

/-- Go `OptionsTemplate`. -/
structure OptionsTemplate where
  TemplateId : Nat
  FieldCount : Nat
  Field : List TemplateField
  ScopeFieldCount : Nat
  ScopeField : List TemplateField
  deriving DecidableEq, Repr

/-- The dynamic values stored in an `Options` map (`interface{}` in Go): the
decoder stores `uint8`, `uint16`, `uint32`, `uint64`, `int64` and `net.IP`. -/
inductive Value where
  | uint8 (v : Nat)
  | uint16 (v : Nat)
  | uint32 (v : Nat)
  | uint64 (v : Nat)
  | int64 (v : Int)
  | ip (v : List Byte)
  deriving DecidableEq, Repr

/-- Go `Options`, a `map[string]interface{}`: an association list with
unique keys. -/
abbrev Options := List (String × Value)

/-- Go `options[key] = value`: replaces the value of an existing key, adds
the key otherwise. -/
def Options.set : Options → String → Value → Options
  | [], key, value => [(key, value)]
  | (k, v) :: rest, key, value =>
      if k = key then (k, value) :: rest else (k, v) :: Options.set rest key value

/-- Go `options[key]` with the comma-ok form. -/
def Options.get : Options → String → Option Value
  | [], _ => none
  | (k, v) :: rest, key => if k = key then some v else Options.get rest key

/-! ## The template cache -/

/-- Modelled from the spec: the template cache (`lru.Cache` of the external
package `github.com/hashicorp/golang-lru`, not part of the repository): a
store of fixed capacity `size`, `items` in recency order with the most
recently used entry first. -/
structure Cache where
  size : Nat
  items : List (Nat × OptionsTemplate)
  deriving DecidableEq, Repr

/-- Modelled from the spec: `get(id) -> (template, found)`, which counts as
a recency refresh of a found entry and changes nothing on a miss. -/
def Cache.Get (c : Cache) (key : Nat) : Option OptionsTemplate × Cache :=
  match c.items.find? (fun e => e.1 == key) with
  | some e => (some e.2, { c with items := e :: c.items.filter (fun x => x.1 != key) })
  | none => (none, c)

/-- Modelled from the spec: `put(id, template)`, insert or overwrite; the
least recently used entry is evicted on insert when over capacity. -/
def Cache.Add (c : Cache) (key : Nat) (value : OptionsTemplate) : Cache :=
  if c.items.any (fun e => e.1 == key) then
    { c with items := (key, value) :: c.items.filter (fun x => x.1 != key) }
  else if c.items.length + 1 > c.size then
    { c with items := ((key, value) :: c.items).dropLast }
  else
    { c with items := (key, value) :: c.items }

/-- Whether the cache holds an entry for `key`. -/
def Cache.Contains (c : Cache) (key : Nat) : Bool :=
  c.items.any (fun e => e.1 == key)

/-- A fresh cache, Go `lru.New(size)`. -/
def Cache.New (size : Nat) : Cache := ⟨size, []⟩

/-! ## `main.go` -/

/-- What a decoder returns when it does not panic: the cache after the
call, the `Options` (`none` is the nil map) and the success indicator. -/
abbrev Outcome := Cache × Option Options × Bool

/-- Go `decodeSingleTemplateField`: returns the field and the number of
bytes to cut. -/
def decodeSingleTemplateField (payload : ByteSlice) : Option (TemplateField × Nat) := do
  let elementId ← (payload.slice 0 2).bind Uint16
  let length ← (payload.slice 2 4).bind Uint16
  if elementId > 0x8000 then
    let enterpriseNumber ← (payload.slice 0 4).bind Uint32
    some ({ ElementId := elementId &&& 0x7fff, Length := length,
            EnterpriseNumber := enterpriseNumber }, 8)
  else
    some ({ ElementId := elementId, Length := length, EnterpriseNumber := 0 }, 4)

/-- Go `decodeSingleOption`: returns the updated `options` map. -/
def decodeSingleOption (byteSlice : ByteSlice) (field : TemplateField) (options : Options) :
    Option Options :=
  if byteSlice.len < field.Length then some options
  else if field.EnterpriseNumber = 0 then
    if field.ElementId = 34 then do
      let v ← (byteSlice.sliceTo field.Length).bind Uint32
      some (options.set "samplingInterval" (Value.uint32 v))
    else if field.ElementId = 36 then do
      let v ← (byteSlice.sliceTo field.Length).bind Uint16
      some (options.set "flowActiveTimeout" (Value.uint16 v))
    else if field.ElementId = 37 then do
      let v ← (byteSlice.sliceTo field.Length).bind Uint16
      some (options.set "flowIdleTimeout" (Value.uint16 v))
    else if field.ElementId = 41 then do
      let v ← (byteSlice.sliceTo field.Length).bind Uint64
      some (options.set "exportedMessageTotalCount" (Value.uint64 v))
    else if field.ElementId = 42 then do
      let v ← (byteSlice.sliceTo field.Length).bind Uint64
      some (options.set "exportedFlowRecordTotalCount" (Value.uint64 v))
    else if field.ElementId = 130 then do
      let s ← byteSlice.sliceTo field.Length
      some (options.set "exporterIPv4Address" (Value.ip s.elems))
    else if field.ElementId = 131 then do
      let s ← byteSlice.sliceTo field.Length
      some (options.set "exporterIPv6Address" (Value.ip s.elems))
    else if field.ElementId = 144 then do
      let v ← (byteSlice.sliceTo field.Length).bind Uint32
      some (options.set "exportingProcessId" (Value.uint32 v))
    else if field.ElementId = 160 then do
      let v ← (byteSlice.sliceTo field.Length).bind Uint64
      some (options.set "exportingProcessId" (Value.int64 (toInt64 v)))
    else if field.ElementId = 214 then do
      let b ← byteSlice.index 0
      some (options.set "exportProtocolVersion" (Value.uint8 b.val))
    else if field.ElementId = 215 then do
      let b ← byteSlice.index 0
      some (options.set "exportTransportProtocol" (Value.uint8 b.val))
    else some options
  else some options

/-- The two descriptor loops of `parseOptionsTemplate`
(`for i := count; i > 0; i--`): decode, append, then leave the loop when
fewer than `cut` bytes are left, else cut. Returns the fields appended to
`acc` and the rest of the slice. -/
def templateFieldLoop : Nat → ByteSlice → List TemplateField →
    Option (List TemplateField × ByteSlice)
  | 0, byteSlice, acc => some (acc, byteSlice)
  | i + 1, byteSlice, acc => do
      let (tf, cut) ← decodeSingleTemplateField byteSlice
      if byteSlice.len < cut then some (acc ++ [tf], byteSlice)
      else
        let rest ← byteSlice.sliceFrom cut
        templateFieldLoop i rest (acc ++ [tf])

/-- Go `parseOptionsTemplate`. -/
def parseOptionsTemplate (_header : IpfixHeader) (payload : ByteSlice) (templateCache : Cache) :
    Option Outcome :=
  if payload.len ≤ 26 then some (templateCache, none, false)
  else do
    let templateId ← (payload.slice 0 2).bind Uint16
    let fieldCount ← (payload.slice 2 4).bind Uint16
    let scopeFieldCount ← (payload.slice 4 6).bind Uint16
    let byteSlice ← payload.sliceFrom 6
    let (scopeField, byteSlice) ← templateFieldLoop scopeFieldCount byteSlice []
    let (field, _) ←
      templateFieldLoop ((fieldCount + 2 ^ 16 - scopeFieldCount) % 2 ^ 16) byteSlice []
    let template : OptionsTemplate :=
      { TemplateId := templateId, FieldCount := fieldCount, Field := field,
        ScopeFieldCount := scopeFieldCount, ScopeField := scopeField }
    some (templateCache.Add templateId template, none, true)

/-- The two value loops of `parseOptions` (`for i := 0; i < len(fields); i++`):
decode, then leave the loop when fewer than `Length` bytes are left, else
cut. Returns the rest of the slice and the updated map. -/
def optionsLoop : List TemplateField → ByteSlice → Options → Option (ByteSlice × Options)
  | [], byteSlice, options => some (byteSlice, options)
  | field :: fields, byteSlice, options => do
      let options ← decodeSingleOption byteSlice field options
      if byteSlice.len < field.Length then some (byteSlice, options)
      else
        let rest ← byteSlice.sliceFrom field.Length
        optionsLoop fields rest options

/-- Go `parseOptions`. -/
def parseOptions (header : IpfixHeader) (payload : ByteSlice) (templateCache : Cache) :
    Option Outcome :=
  match templateCache.Get header.SetId with
  | (none, cache) => some (cache, none, true)
  | (some template, cache) => do
      let (byteSlice, options) ← optionsLoop template.ScopeField payload []
      let (_, options) ← optionsLoop template.Field byteSlice options
      some (cache, some options, true)

/-- Go `parsePayload`. -/
def parsePayload (payload : ByteSlice) (templateCache : Cache) : Option Outcome :=
  if payload.len < 18 then some (templateCache, none, false)
  else do
    let version ← (payload.slice 0 2).bind Uint16
    let messageLength ← (payload.slice 2 4).bind Uint16
    let exportTime ← (payload.slice 4 8).bind Uint32
    let sequenceNumber ← (payload.slice 8 12).bind Uint32
    let domainId ← (payload.slice 12 16).bind Uint32
    let setId ← (payload.slice 16 20).bind Uint16
    let header : IpfixHeader :=
      { Version := version, MessageLength := messageLength, ExportTime := exportTime,
        SequenceNumber := sequenceNumber, DomainId := domainId, SetId := setId }
    if header.Version ≠ 10 then some (templateCache, none, false)
    else if payload.len ≤ 20 then some (templateCache, none, false)
    else if header.SetId = 3 then do
      let body ← payload.sliceFrom 20
      parseOptionsTemplate header body templateCache
    else if header.SetId ≥ 256 then do
      let body ← payload.sliceFrom 20
      parseOptions header body templateCache
    else some (templateCache, none, false)

/-! ## The test vectors of `main_test.go` -/

/-- Go `TEMPLATE_BYTES`. -/
def TEMPLATE_BYTES : List Byte :=
  [0, 10, 0, 72, 90, 62, 128, 116, 0, 1, 119, 149, 0, 8, 0, 0, 0,
   3, 0, 56, 2, 0, 0, 11, 0, 1, 0, 144, 0, 4, 0, 41, 0, 8, 0, 42, 0, 8, 0, 160, 0, 8, 0, 130,
   0, 4, 0, 131, 0, 16, 0, 34, 0, 4, 0, 36, 0, 2, 0, 37, 0, 2, 0, 214, 0, 1, 0, 215, 0, 1, 0, 0]

/-- Go `DATA_BYTES`. -/
def DATA_BYTES : List Byte :=
  [0, 10, 0, 80, 90, 62, 128, 116, 0, 1, 119, 149, 0, 8, 0, 0, 2, 0,
   0, 64, 0, 0, 0, 2, 0, 0, 0, 0, 0, 0, 0, 250, 0, 0, 0, 0, 0, 0, 0, 10, 0, 0, 0, 0, 0, 0, 0,
   72, 192, 168, 0, 1, 0, 0, 0, 0, 0, 0, 0, 0, 0, 0, 0, 0, 0, 0, 0, 0, 0, 0, 0, 10, 0, 60, 0,
   15, 10, 17, 0, 0]

/-! ## Further inputs used by the theorems -/

/-- A valid Options Template Set with one enterprise-scoped descriptor:
TemplateId 512, FieldCount 6, ScopeFieldCount 1, scope field (144, 4), then
(element 1 of enterprise 9, Length 4), (41, 8), (42, 8), (34, 4), (36, 2). -/
def ENTERPRISE_TEMPLATE_BYTES : List Byte :=
  [0, 10, 0, 54, 0, 0, 0, 0, 0, 0, 0, 0, 0, 0, 0, 0, 0, 3, 0, 38,
   2, 0, 0, 6, 0, 1,
   0, 144, 0, 4,
   128, 1, 0, 4, 0, 0, 0, 9,
   0, 41, 0, 8, 0, 42, 0, 8, 0, 34, 0, 4, 0, 36, 0, 2]

/-- The descriptors encoded in `ENTERPRISE_TEMPLATE_BYTES` after the scope field. -/
def ENTERPRISE_TEMPLATE_FIELDS : List TemplateField :=
  [⟨1, 4, 9⟩, ⟨41, 8, 0⟩, ⟨42, 8, 0⟩, ⟨34, 4, 0⟩, ⟨36, 2, 0⟩]

/-- An Options Template Set declaring TemplateId 512 with scope field
(144, 4) and regular field (36, 2), followed by 13 bytes of padding. -/
def SHORT_TEMPLATE_BYTES : List Byte :=
  [0, 10, 0, 47, 0, 0, 0, 0, 0, 0, 0, 0, 0, 0, 0, 0, 0, 3, 0, 31,
   2, 0, 0, 2, 0, 1,
   0, 144, 0, 4,
   0, 36, 0, 2,
   0, 0, 0, 0, 0, 0, 0, 0, 0, 0, 0, 0, 0]

/-- An Options Data Set for template 512 whose body holds only the two bytes `0, 60`. -/
def SHORT_DATA_BYTES : List Byte :=
  [0, 10, 0, 22, 0, 0, 0, 0, 0, 0, 0, 0, 0, 0, 0, 0, 2, 0, 0, 6,
   0, 60]

/-- An Options Template body (the bytes after the 20-byte preamble) that
declares TemplateId 512, FieldCount 7 and ScopeFieldCount 0 but holds only
six complete descriptors. -/
def TRUNCATED_TEMPLATE_BODY : List Byte :=
  [2, 0, 0, 7, 0, 0,
   0, 41, 0, 8, 0, 42, 0, 8, 0, 160, 0, 8, 0, 130, 0, 4, 0, 34, 0, 4, 0, 36, 0, 2]

/-- The six descriptors present in `TRUNCATED_TEMPLATE_BODY`. -/
def TRUNCATED_TEMPLATE_FIELDS : List TemplateField :=
  [⟨41, 8, 0⟩, ⟨42, 8, 0⟩, ⟨160, 8, 0⟩, ⟨130, 4, 0⟩, ⟨34, 4, 0⟩, ⟨36, 2, 0⟩]

/-- A header value for calls that take one; only `SetId` is ever read. -/
def headerFor (setId : Nat) : IpfixHeader :=
  { Version := 10, MessageLength := 0, ExportTime := 0, SequenceNumber := 0,
    DomainId := 0, SetId := setId }

/-! ## Specification-side definitions

The definitions below follow the words of the specification; the theorems
compare them with the decoder above. -/

/-- Big-endian value of a byte string. -/
def beValue (bytes : List Byte) : Nat :=
  bytes.foldl (fun acc b => acc * 256 + b.val) 0

/-- Big-endian value of the `width` bytes of `data` that start at `offset`. -/
def beAt (data : List Byte) (offset width : Nat) : Nat :=
  beValue ((data.drop offset).take width)

/-- One rule of the field registry: output name, wire width, and the
decode rule applied to the bytes of the field. -/
structure Rule where
  name : String
  width : Nat
  decode : List Byte → Value

/-- The field registry as the specification tabulates it: only enterprise
number 0 is populated; element 160 is written under the output key of
`exportingProcessId` as a signed 64-bit value; elements 214 and 215 decode
the first byte only. -/
def registry (enterpriseNumber elementId : Nat) : Option Rule :=
  if enterpriseNumber = 0 then
    if elementId = 34 then
      some ⟨"samplingInterval", 4, fun b => Value.uint32 (beValue b)⟩
    else if elementId = 36 then
      some ⟨"flowActiveTimeout", 2, fun b => Value.uint16 (beValue b)⟩
    else if elementId = 37 then
      some ⟨"flowIdleTimeout", 2, fun b => Value.uint16 (beValue b)⟩
    else if elementId = 41 then
      some ⟨"exportedMessageTotalCount", 8, fun b => Value.uint64 (beValue b)⟩
    else if elementId = 42 then
      some ⟨"exportedFlowRecordTotalCount", 8, fun b => Value.uint64 (beValue b)⟩
    else if elementId = 130 then
      some ⟨"exporterIPv4Address", 4, fun b => Value.ip b⟩
    else if elementId = 131 then
      some ⟨"exporterIPv6Address", 16, fun b => Value.ip b⟩
    else if elementId = 144 then
      some ⟨"exportingProcessId", 4, fun b => Value.uint32 (beValue b)⟩
    else if elementId = 160 then
      some ⟨"exportingProcessId", 8, fun b => Value.int64 (toInt64 (beValue b))⟩
    else if elementId = 214 then
      some ⟨"exportProtocolVersion", 1, fun b => Value.uint8 (beValue (b.take 1))⟩
    else if elementId = 215 then
      some ⟨"exportTransportProtocol", 1, fun b => Value.uint8 (beValue (b.take 1))⟩
    else none
  else none

/-- Whether the pair (EnterpriseNumber, ElementId) of a field is in the registry. -/
def isRecognised (f : TemplateField) : Bool :=
  (registry f.EnterpriseNumber f.ElementId).isSome

/-- A recognised field declares a Length equal to its wire width (an
unrecognised field may declare any Length). -/
def hasWireWidth (f : TemplateField) : Bool :=
  match registry f.EnterpriseNumber f.ElementId with
  | some r => f.Length == r.width
  | none => true

/-- Sum of the declared Lengths of a sequence of fields. -/
def totalLength (fields : List TemplateField) : Nat :=
  (fields.map (fun f => f.Length)).sum

/-- The fields of a template in the order of the walk: `ScopeField`, then `Field`. -/
def OptionsTemplate.walk (t : OptionsTemplate) : List TemplateField :=
  t.ScopeField ++ t.Field

/-- The write of one field as the specification words it: a recognised
field records the decoded bytes under its output name (replacing an earlier
value of that name), an unrecognised one records nothing. -/
def specWrite (f : TemplateField) (bytes : List Byte) (options : Options) : Options :=
  match registry f.EnterpriseNumber f.ElementId with
  | some r => options.set r.name (r.decode bytes)
  | none => options

/-- The walk of the specification over `fields`, the field at hand reading
the `Length` bytes of `data` at `offset`, the sum of the Lengths of all
fields before it. -/
def specWalk : List TemplateField → Nat → List Byte → Options → Options
  | [], _, _, options => options
  | f :: fields, offset, data, options =>
      specWalk fields (offset + f.Length) data
        (specWrite f ((data.drop offset).take f.Length) options)

/-- The `Options` the specification assigns to a data body under a template. -/
def specOptions (t : OptionsTemplate) (data : List Byte) : Options :=
  specWalk t.walk 0 data []

/-- The template `t` with the field `u` inserted before position `i` of
`ScopeField` (when `inScope`) or of `Field` (otherwise); a position past
the end appends. -/
def insertField (t : OptionsTemplate) (inScope : Bool) (i : Nat) (u : TemplateField) :
    OptionsTemplate :=
  if inScope then { t with ScopeField := t.ScopeField.take i ++ u :: t.ScopeField.drop i }
  else { t with Field := t.Field.take i ++ u :: t.Field.drop i }

/-- The byte offset, in a data body, of position `i` of `ScopeField` (when
`inScope`) or of `Field` (otherwise): the sum of the Lengths of all fields
walked before it. -/
def fieldOffset (t : OptionsTemplate) (inScope : Bool) (i : Nat) : Nat :=
  if inScope then totalLength (t.ScopeField.take i)
  else totalLength t.ScopeField + totalLength (t.Field.take i)

/-- The byte string `data` with `bytes` inserted at `offset`. -/
def insertBytes (data : List Byte) (offset : Nat) (bytes : List Byte) : List Byte :=
  data.take offset ++ bytes ++ data.drop offset

/-- Elements 214 and 215 of enterprise 0 are decoded from `byteSlice[0]`
instead of from the `Length` bytes of the field; this holds when such a
field declares at least one byte. -/
def firstByteDeclared (f : TemplateField) : Bool :=
  if f.EnterpriseNumber = 0 ∧ (f.ElementId = 214 ∨ f.ElementId = 215) then
    decide (1 ≤ f.Length)
  else true

/-- The template that `TEMPLATE_BYTES` encodes. -/
def TEST_TEMPLATE : OptionsTemplate :=
  { TemplateId := 512, FieldCount := 11,
    Field := [⟨41, 8, 0⟩, ⟨42, 8, 0⟩, ⟨160, 8, 0⟩, ⟨130, 4, 0⟩, ⟨131, 16, 0⟩, ⟨34, 4, 0⟩,
              ⟨36, 2, 0⟩, ⟨37, 2, 0⟩, ⟨214, 1, 0⟩, ⟨215, 1, 0⟩],
    ScopeFieldCount := 1, ScopeField := [⟨144, 4, 0⟩] }

/-- A template whose first regular field is element 214 with declared Length 0. -/
def EMPTY_FIRST_BYTE_TEMPLATE : OptionsTemplate :=
  { TemplateId := 512, FieldCount := 2, Field := [⟨214, 0, 0⟩, ⟨36, 2, 0⟩],
    ScopeFieldCount := 0, ScopeField := [] }

/-- The cache after `TEMPLATE_BYTES` has been decoded against a fresh cache
of 10240 entries, as in `parseTestOptions`. -/
def testCache : Cache :=
  match parsePayload (ByteSlice.ofList TEMPLATE_BYTES) (Cache.New 10240) with
  | some r => r.1
  | none => Cache.New 10240

/-- An Options Template body that declares TemplateId 512, FieldCount 0 and
ScopeFieldCount 1: the scope descriptor (144, 4), then 20 bytes that
belong to no declared descriptor (16 zero bytes and `80 01 00 04`). -/
def WRAPAROUND_TEMPLATE_BODY : List Byte :=
  [2, 0, 0, 0, 0, 1,
   0, 144, 0, 4,
   0, 0, 0, 0, 0, 0, 0, 0, 0, 0, 0, 0, 0, 0, 0, 0, 128, 1, 0, 4]

/-- An Options Template body of exactly 26 bytes: TemplateId 512,
FieldCount 5, ScopeFieldCount 0 and the five descriptors (41, 8), (42, 8),
(160, 8), (130, 4), (34, 4). -/
def EXACT26_TEMPLATE_BODY : List Byte :=
  [2, 0, 0, 5, 0, 0,
   0, 41, 0, 8, 0, 42, 0, 8, 0, 160, 0, 8, 0, 130, 0, 4, 0, 34, 0, 4]

/-- A 20-byte message header with Version 9 and SetId 512. -/
def VERSION9_BYTES : List Byte :=
  [0, 9, 0, 20, 0, 0, 0, 0, 0, 0, 0, 0, 0, 0, 0, 0, 2, 0, 0, 4]

/-- The number of descriptors the two loops of `parseOptionsTemplate` set
out to read for a body: ScopeFieldCount, then FieldCount - ScopeFieldCount
in 16-bit arithmetic. -/
def declaredDescriptors (body : List Byte) : Nat :=
  beAt body 4 2 + (beAt body 2 2 + 2 ^ 16 - beAt body 4 2) % 2 ^ 16

/-- The number of bytes `decodeSingleOption` decodes for a field: 4 for
elements 34 and 144, 2 for 36 and 37, 8 for 41, 42 and 160, 1 for 214 and
215 of enterprise 0; none for 130, 131 and unrecognised fields. -/
def decodeWidth (f : TemplateField) : Nat :=
  if f.EnterpriseNumber = 0 then
    if f.ElementId = 34 ∨ f.ElementId = 144 then 4
    else if f.ElementId = 36 ∨ f.ElementId = 37 then 2
    else if f.ElementId = 41 ∨ f.ElementId = 42 ∨ f.ElementId = 160 then 8
    else if f.ElementId = 214 ∨ f.ElementId = 215 then 1
    else 0
  else 0

/-- A field declares a Length of at least its decode width. -/
def declaresDecodeWidth (f : TemplateField) : Bool :=
  decide (decodeWidth f ≤ f.Length)

/-- The header of a message as the wire layout gives it: Version in bytes
0-1, MessageLength in 2-3, ExportTime in 4-7, SequenceNumber in 8-11,
DomainId in 12-15 and SetId in 16-17, all big-endian. -/
def headerOf (message : List Byte) : IpfixHeader :=
  { Version := beAt message 0 2, MessageLength := beAt message 2 2,
    ExportTime := beAt message 4 4, SequenceNumber := beAt message 8 4,
    DomainId := beAt message 12 4, SetId := beAt message 16 2 }

/-- The first `n` descriptors are completely present in `data`, in wire
order: 4 bytes for a descriptor without the enterprise bit (raw ElementId
below 0x8000), 8 bytes for a descriptor with it. -/
def descriptorsPresent : Nat → List Byte → Bool
  | 0, _ => true
  | n + 1, data =>
      if beAt data 0 2 < 0x8000 then
        decide (4 ≤ data.length) && descriptorsPresent n (data.drop 4)
      else decide (8 ≤ data.length) && descriptorsPresent n (data.drop 8)

/-- An Options Template body of 30 bytes: TemplateId 512, FieldCount 5,
ScopeFieldCount 0 and the five descriptors (41, 8), (element 0 of
enterprise 9, Length 4: `80 00 00 04 00 00 00 09`), (42, 8), (34, 4),
(36, 2). -/
def ELEMENT_ZERO_TEMPLATE_BODY : List Byte :=
  [2, 0, 0, 5, 0, 0,
   0, 41, 0, 8,
   128, 0, 0, 4, 0, 0, 0, 9,
   0, 42, 0, 8, 0, 34, 0, 4, 0, 36, 0, 2]

/-- C6: a descriptor whose raw ElementId is exactly 0x8000 (enterprise bit
set, element 0) is not treated as enterprise-scoped by
`decodeSingleTemplateField`: 4 bytes are reported, EnterpriseNumber is 0
and the decoded ElementId is 0x8000, outside [0, 0x7fff]. -/
theorem decodeSingleTemplateField_raw_8000 :
    decodeSingleTemplateField (ByteSlice.ofList [128, 0, 0, 4, 0, 0, 0, 9])
      = some (⟨0x8000, 4, 0⟩, 4) := by
  decide

/-- C7: for the enterprise-scoped descriptor `80 01 00 04 00 00 00 09`
`decodeSingleTemplateField` returns as EnterpriseNumber the big-endian
value of bytes 0-3 (0x80010004), not of bytes 4-7 (9). -/
theorem decodeSingleTemplateField_enterprise_bytes :
    decodeSingleTemplateField (ByteSlice.ofList [128, 1, 0, 4, 0, 0, 0, 9])
        = some (⟨1, 4, 0x80010004⟩, 8)
      ∧ beAt [128, 1, 0, 4, 0, 0, 0, 9] 4 4 = 9
      ∧ beAt [128, 1, 0, 4, 0, 0, 0, 9] 0 4 = 0x80010004 := by
  decide

/-- C2: decoding the valid Options Template Set `ENTERPRISE_TEMPLATE_BYTES`
and looking up TemplateId 512 returns a template whose first regular field
has EnterpriseNumber 0x80010004 where 9 was encoded, so the stored field
sequence differs from the encoded one. -/
theorem parsePayload_enterprise_template_lookup :
    ((parsePayload (ByteSlice.ofList ENTERPRISE_TEMPLATE_BYTES) (Cache.New 10240)).bind
        (fun r => (r.1.Get 512).1))
      = some ⟨512, 6, [⟨1, 4, 0x80010004⟩, ⟨41, 8, 0⟩, ⟨42, 8, 0⟩, ⟨34, 4, 0⟩, ⟨36, 2, 0⟩],
              1, [⟨144, 4, 0⟩]⟩
      ∧ ((parsePayload (ByteSlice.ofList ENTERPRISE_TEMPLATE_BYTES) (Cache.New 10240)).bind
        (fun r => (r.1.Get 512).1)).map (fun t => t.Field)
          ≠ some ENTERPRISE_TEMPLATE_FIELDS := by
  decide

/-- C5: with the template of `SHORT_TEMPLATE_BYTES` cached (scope field
(144, 4), regular field (36, 2)) and a data body of two bytes, the first
field already exceeds the remaining bytes, yet the regular field after it
is decoded: the result holds flowActiveTimeout = 60 and is not the empty
`Options` of decoding the first 0 fields. -/
theorem parsePayload_truncated_scope_field :
    ((parsePayload (ByteSlice.ofList SHORT_TEMPLATE_BYTES) (Cache.New 10240)).bind
        (fun r => parsePayload (ByteSlice.ofList SHORT_DATA_BYTES) r.1)).map (fun r => r.2)
      = some (some [("flowActiveTimeout", Value.uint16 60)], true) := by
  decide

/-- C8: `parsePayload` panics on an 18-byte buffer whose capacity is its
length (at `payload[16:20]`), `parseOptions` panics on a cached field
(34, Length 2) given two bytes (at `Uint32` of a 2-byte slice), and
`parseOptionsTemplate` panics on a body that declares more descriptors
than it holds (at `payload[0:2]` of the empty rest). -/
theorem decoder_panics :
    (∀ c : Cache, parsePayload (ByteSlice.ofList
        [0, 10, 0, 18, 0, 0, 0, 0, 0, 0, 0, 0, 0, 0, 0, 0, 1, 0]) c = none)
      ∧ parseOptions (headerFor 512) (ByteSlice.ofList [0, 10])
          ((Cache.New 10240).Add 512 ⟨512, 1, [⟨34, 2, 0⟩], 0, []⟩) = none
      ∧ (∀ c : Cache, parseOptionsTemplate (headerFor 3)
          (ByteSlice.ofList ([2, 0, 0, 9, 0, 0] ++ List.replicate 24 0)) c = none) := by
  exact ⟨fun _ => rfl, by decide, fun _ => rfl⟩

/-- C9: on a 19-byte buffer whose capacity is its length `parsePayload`
panics (at `payload[16:20]`) instead of returning the failure indicator. -/
theorem parsePayload_nineteen_bytes (c : Cache) :
    parsePayload (ByteSlice.ofList (List.replicate 19 0)) c = none
      ∧ parsePayload (ByteSlice.ofList (List.replicate 19 0)) c ≠ some (c, none, false) := by
  constructor
  · rfl
  · intro h
    cases h

/-- C10: on `TRUNCATED_TEMPLATE_BODY`, which declares seven descriptors and
holds six, `parseOptionsTemplate` panics when the capacity of the body is
its length; when four more bytes of the backing array lie past the length
it stores seven fields, the last one read from beyond the body. -/
theorem parseOptionsTemplate_truncated_body (c : Cache) :
    parseOptionsTemplate (headerFor 3) (ByteSlice.ofList TRUNCATED_TEMPLATE_BODY) c = none
      ∧ parseOptionsTemplate (headerFor 3) ⟨TRUNCATED_TEMPLATE_BODY, [0, 0, 0, 0]⟩ c
          = some (c.Add 512 ⟨512, 7, TRUNCATED_TEMPLATE_FIELDS ++ [⟨0, 0, 0⟩], 0, []⟩,
              none, true) :=
  ⟨rfl, rfl⟩

/-! ## Lemmas on slices and big-endian reads -/

theorem slice_of_le_len (s : ByteSlice) (lo hi : Nat) (h1 : lo ≤ hi) (h2 : hi ≤ s.len) :
    s.slice lo hi = some ⟨(s.elems.take hi).drop lo, s.elems.drop hi ++ s.spare⟩ := by
  have h3 : hi ≤ s.elems.length := h2
  have h4 : hi ≤ s.cap := by unfold ByteSlice.cap; omega
  unfold ByteSlice.slice
  rw [if_pos ⟨h1, h4⟩, List.take_append_of_le_length h3, List.drop_append_of_le_length h3]

theorem sliceTo_of_le_len (s : ByteSlice) (hi : Nat) (h : hi ≤ s.len) :
    s.sliceTo hi = some ⟨s.elems.take hi, s.elems.drop hi ++ s.spare⟩ := by
  unfold ByteSlice.sliceTo
  rw [slice_of_le_len s 0 hi (Nat.zero_le _) h]
  rfl

theorem sliceFrom_of_le_len (s : ByteSlice) (lo : Nat) (h : lo ≤ s.len) :
    s.sliceFrom lo = some ⟨s.elems.drop lo, s.spare⟩ := by
  unfold ByteSlice.sliceFrom
  rw [if_pos h]

theorem exists_cons2 (l : List Byte) (h : 2 ≤ l.length) :
    ∃ a b r, l = a :: b :: r := by
  match l, h with
  | a :: b :: r, _ => exact ⟨a, b, r, rfl⟩

theorem exists_cons4 (l : List Byte) (h : 4 ≤ l.length) :
    ∃ a b c d r, l = a :: b :: c :: d :: r := by
  match l, h with
  | a :: b :: c :: d :: r, _ => exact ⟨a, b, c, d, r, rfl⟩

theorem exists_cons8 (l : List Byte) (h : 8 ≤ l.length) :
    ∃ a b c d e f g k r, l = a :: b :: c :: d :: e :: f :: g :: k :: r := by
  match l, h with
  | a :: b :: c :: d :: e :: f :: g :: k :: r, _ => exact ⟨a, b, c, d, e, f, g, k, r, rfl⟩

theorem Uint16_eq_beValue (l sp : List Byte) (h : 2 ≤ l.length) :
    Uint16 ⟨l, sp⟩ = some (beValue (l.take 2)) := by
  obtain ⟨a, b, r, rfl⟩ := exists_cons2 l h
  simp [Uint16, beValue]

theorem Uint32_eq_beValue (l sp : List Byte) (h : 4 ≤ l.length) :
    Uint32 ⟨l, sp⟩ = some (beValue (l.take 4)) := by
  obtain ⟨a, b, c, d, r, rfl⟩ := exists_cons4 l h
  simp only [Uint32, beValue, List.take_succ_cons, List.take_zero, List.foldl_cons,
    List.foldl_nil, Option.some.injEq]
  omega

theorem Uint64_eq_beValue (l sp : List Byte) (h : 8 ≤ l.length) :
    Uint64 ⟨l, sp⟩ = some (beValue (l.take 8)) := by
  obtain ⟨a, b, c, d, e, f, g, k, r, rfl⟩ := exists_cons8 l h
  simp only [Uint64, beValue, List.take_succ_cons, List.take_zero, List.foldl_cons,
    List.foldl_nil, Option.some.injEq]
  omega

theorem take_drop_take (l : List Byte) (lo hi w : Nat) (h : lo + w ≤ hi) :
    ((l.take hi).drop lo).take w = (l.drop lo).take w := by
  rw [List.drop_take, List.take_take]
  congr 1
  omega

/-- Reading a `uint16` through `payload[lo:hi]` inside the length of the
slice gives the big-endian value of the two bytes at `lo`. -/
theorem read_Uint16 (s : ByteSlice) (lo hi : Nat) (h1 : lo + 2 ≤ hi) (h2 : hi ≤ s.len) :
    (s.slice lo hi).bind Uint16 = some (beAt s.elems lo 2) := by
  have h3 : hi ≤ s.elems.length := h2
  rw [slice_of_le_len s lo hi (by omega) h2, Option.some_bind,
    Uint16_eq_beValue _ _ (by rw [List.length_drop, List.length_take]; omega),
    take_drop_take _ _ _ _ h1]
  rfl

/-- Reading a `uint32` through `payload[lo:hi]` inside the length of the
slice gives the big-endian value of the four bytes at `lo`. -/
theorem read_Uint32 (s : ByteSlice) (lo hi : Nat) (h1 : lo + 4 ≤ hi) (h2 : hi ≤ s.len) :
    (s.slice lo hi).bind Uint32 = some (beAt s.elems lo 4) := by
  have h3 : hi ≤ s.elems.length := h2
  rw [slice_of_le_len s lo hi (by omega) h2, Option.some_bind,
    Uint32_eq_beValue _ _ (by rw [List.length_drop, List.length_take]; omega),
    take_drop_take _ _ _ _ h1]
  rfl

theorem Cache.Get_of_not_Contains (c : Cache) (key : Nat) (h : c.Contains key = false) :
    c.Get key = (none, c) := by
  unfold Cache.Contains at h
  unfold Cache.Get
  have : c.items.find? (fun e => e.1 == key) = none := by
    rw [List.find?_eq_none]
    intro x hx
    rw [List.any_eq_false] at h
    exact h x hx
  rw [this]

/-- What `parsePayload` does with a buffer longer than 20 bytes, the
header fields read as big-endian values of the buffer. -/
theorem parsePayload_of_long (payload : ByteSlice) (cache : Cache) (hlen : 20 < payload.len) :
    parsePayload payload cache =
      if beAt payload.elems 0 2 ≠ 10 then some (cache, none, false)
      else if beAt payload.elems 16 2 = 3 then
        parseOptionsTemplate
          ⟨beAt payload.elems 0 2, beAt payload.elems 2 2, beAt payload.elems 4 4,
           beAt payload.elems 8 4, beAt payload.elems 12 4, beAt payload.elems 16 2⟩
          ⟨payload.elems.drop 20, payload.spare⟩ cache
      else if beAt payload.elems 16 2 ≥ 256 then
        parseOptions
          ⟨beAt payload.elems 0 2, beAt payload.elems 2 2, beAt payload.elems 4 4,
           beAt payload.elems 8 4, beAt payload.elems 12 4, beAt payload.elems 16 2⟩
          ⟨payload.elems.drop 20, payload.spare⟩ cache
      else some (cache, none, false) := by
  unfold parsePayload
  rw [if_neg (by omega), read_Uint16 _ 0 2 (by omega) (by omega),
    read_Uint16 _ 2 4 (by omega) (by omega), read_Uint32 _ 4 8 (by omega) (by omega),
    read_Uint32 _ 8 12 (by omega) (by omega), read_Uint32 _ 12 16 (by omega) (by omega),
    read_Uint16 _ 16 20 (by omega) (by omega), sliceFrom_of_le_len _ 20 (by omega)]
  simp only [Option.bind_eq_bind, Option.some_bind, if_neg (show ¬ payload.len ≤ 20 by omega)]

/-! ## Theorems: data sets without a cached template -/

/-- C3: for every buffer longer than 20 bytes with Version 10 and
SetId >= 256, if the cache holds no entry for SetId then `parsePayload`
returns success with the nil (empty) result and the cache as it was. -/
theorem parsePayload_unknown_template (payload : ByteSlice) (cache : Cache)
    (hlen : 20 < payload.len) (hversion : beAt payload.elems 0 2 = 10)
    (hset : 256 ≤ beAt payload.elems 16 2)
    (hmiss : cache.Contains (beAt payload.elems 16 2) = false) :
    parsePayload payload cache = some (cache, none, true) := by
  rw [parsePayload_of_long payload cache hlen, if_neg (by omega), if_neg (by omega),
    if_pos (by omega)]
  unfold parseOptions
  simp only [Cache.Get_of_not_Contains cache _ hmiss]

/-- C3, witness: `DATA_BYTES` against a fresh cache. -/
theorem parsePayload_unknown_template_witness :
    20 < (ByteSlice.ofList DATA_BYTES).len
      ∧ beAt DATA_BYTES 0 2 = 10
      ∧ beAt DATA_BYTES 16 2 = 512
      ∧ (Cache.New 10240).Contains 512 = false
      ∧ parsePayload (ByteSlice.ofList DATA_BYTES) (Cache.New 10240)
          = some (Cache.New 10240, none, true) :=
  ⟨by decide, by decide, by decide, by decide,
    parsePayload_unknown_template (ByteSlice.ofList DATA_BYTES) (Cache.New 10240)
      (by decide) (by decide) (by decide) (by decide)⟩

/-! ## Lemmas on the value loops -/

theorem totalLength_cons (f : TemplateField) (fs : List TemplateField) :
    totalLength (f :: fs) = f.Length + totalLength fs := by
  simp [totalLength]

theorem totalLength_append (a b : List TemplateField) :
    totalLength (a ++ b) = totalLength a + totalLength b := by
  simp [totalLength]

theorem sliceTo_Uint16 (bs : ByteSlice) (h : 2 ≤ bs.len) :
    (bs.sliceTo 2).bind Uint16 = some (beValue (bs.elems.take 2)) := by
  have h2 : 2 ≤ bs.elems.length := h
  rw [sliceTo_of_le_len bs 2 h, Option.some_bind,
    Uint16_eq_beValue _ _ (by rw [List.length_take]; omega), List.take_take]
  rfl

theorem sliceTo_Uint32 (bs : ByteSlice) (h : 4 ≤ bs.len) :
    (bs.sliceTo 4).bind Uint32 = some (beValue (bs.elems.take 4)) := by
  have h2 : 4 ≤ bs.elems.length := h
  rw [sliceTo_of_le_len bs 4 h, Option.some_bind,
    Uint32_eq_beValue _ _ (by rw [List.length_take]; omega), List.take_take]
  rfl

theorem sliceTo_Uint64 (bs : ByteSlice) (h : 8 ≤ bs.len) :
    (bs.sliceTo 8).bind Uint64 = some (beValue (bs.elems.take 8)) := by
  have h2 : 8 ≤ bs.elems.length := h
  rw [sliceTo_of_le_len bs 8 h, Option.some_bind,
    Uint64_eq_beValue _ _ (by rw [List.length_take]; omega), List.take_take]
  rfl

theorem index_zero_beValue (bs : ByteSlice) (h : 1 ≤ bs.len) :
    (bs.index 0).map (fun b => b.val) = some (beValue ((bs.elems.take 1).take 1)) := by
  obtain ⟨elems, spare⟩ := bs
  match elems, h with
  | a :: r, _ => simp [ByteSlice.index, beValue]

/-- One field whose bytes are all present and whose Length is its wire
width: `decodeSingleOption` performs the write of the specification. -/
theorem decodeSingleOption_eq_specWrite (bs : ByteSlice) (f : TemplateField) (o : Options)
    (hw : hasWireWidth f = true) (hl : f.Length ≤ bs.len) :
    decodeSingleOption bs f o = some (specWrite f (bs.elems.take f.Length) o) := by
  obtain ⟨e, l, en⟩ := f
  simp only [] at hl
  simp only [hasWireWidth, registry] at hw
  unfold decodeSingleOption specWrite registry
  simp only []
  rw [if_neg (by omega)]
  by_cases hen : en = 0
  · simp only [hen, if_true] at hw ⊢
    by_cases h34 : e = 34
    · subst h34
      simp at hw
      subst hw
      simp [sliceTo_Uint32 bs hl]
    by_cases h36 : e = 36
    · subst h36
      simp at hw
      subst hw
      simp [sliceTo_Uint16 bs hl]
    by_cases h37 : e = 37
    · subst h37
      simp at hw
      subst hw
      simp [sliceTo_Uint16 bs hl]
    by_cases h41 : e = 41
    · subst h41
      simp at hw
      subst hw
      simp [sliceTo_Uint64 bs hl]
    by_cases h42 : e = 42
    · subst h42
      simp at hw
      subst hw
      simp [sliceTo_Uint64 bs hl]
    by_cases h130 : e = 130
    · subst h130
      simp [sliceTo_of_le_len bs l hl]
    by_cases h131 : e = 131
    · subst h131
      simp [sliceTo_of_le_len bs l hl]
    by_cases h144 : e = 144
    · subst h144
      simp at hw
      subst hw
      simp [sliceTo_Uint32 bs hl]
    by_cases h160 : e = 160
    · subst h160
      simp at hw
      subst hw
      simp [sliceTo_Uint64 bs hl]
    by_cases h214 : e = 214
    · subst h214
      simp at hw
      subst hw
      have := index_zero_beValue bs hl
      rcases hb : bs.index 0 with _ | b
      · rw [hb] at this
        simp at this
      · rw [hb] at this
        simp at this
        simp [this]
    by_cases h215 : e = 215
    · subst h215
      simp at hw
      subst hw
      have := index_zero_beValue bs hl
      rcases hb : bs.index 0 with _ | b
      · rw [hb] at this
        simp at this
      · rw [hb] at this
        simp at this
        simp [this]
    simp [h34, h36, h37, h41, h42, h130, h131, h144, h160, h214, h215]
  · simp [hen]

/-- A value loop over fields of wire width whose bytes are all present
performs the walk of the specification and leaves the slice after the last
field. -/
theorem optionsLoop_eq_specWalk (fs : List TemplateField) :
    ∀ (data : List Byte) (offset : Nat) (spare : List Byte) (o : Options),
      (∀ f ∈ fs, hasWireWidth f = true) → offset + totalLength fs ≤ data.length →
      optionsLoop fs ⟨data.drop offset, spare⟩ o
        = some (⟨data.drop (offset + totalLength fs), spare⟩, specWalk fs offset data o) := by
  induction fs with
  | nil =>
    intro data offset spare o _ _
    simp [optionsLoop, specWalk, totalLength]
  | cons f fs ih =>
    intro data offset spare o hw hlen
    rw [totalLength_cons] at hlen
    have hf : f.Length ≤ (ByteSlice.mk (data.drop offset) spare).len := by
      simp only [ByteSlice.len, List.length_drop]
      omega
    have hstep := decodeSingleOption_eq_specWrite ⟨data.drop offset, spare⟩ f o
      (hw f (List.mem_cons_self f fs)) hf
    have hrest := ih data (offset + f.Length) spare
      (specWrite f ((data.drop offset).take f.Length) o)
      (fun g hg => hw g (List.mem_cons_of_mem f hg)) (by omega)
    unfold optionsLoop
    rw [hstep, Option.bind_eq_bind, Option.some_bind, if_neg (by omega),
      sliceFrom_of_le_len _ _ hf]
    simp only [Option.bind_eq_bind, Option.some_bind, List.drop_drop]
    rw [totalLength_cons, specWalk, ← Nat.add_assoc]
    exact hrest

theorem specWalk_append (a b : List TemplateField) :
    ∀ (offset : Nat) (data : List Byte) (o : Options),
      specWalk (a ++ b) offset data o
        = specWalk b (offset + totalLength a) data (specWalk a offset data o) := by
  induction a with
  | nil =>
    intro offset data o
    simp [specWalk, totalLength]
  | cons f a ih =>
    intro offset data o
    rw [List.cons_append, specWalk, specWalk, ih, totalLength_cons, Nat.add_assoc]

/-! ## Theorems: decoding a data set against its template -/

/-- C1: for every cached template in which each recognised field declares
its wire width, and every data body at least as long as the sum of the
declared Lengths, `parseOptions` returns success with exactly the `Options`
of the specification's walk over `ScopeField` then `Field` (each recognised
field writing, under its output name, the value of the bytes at the offset
given by the Lengths before it; later writes replace earlier ones; bytes
past the last field and the spare capacity are ignored). -/
theorem parseOptions_eq_specOptions (header : IpfixHeader) (payload : ByteSlice)
    (cache : Cache) (template : OptionsTemplate)
    (hcached : (cache.Get header.SetId).1 = some template)
    (hwidth : ∀ f ∈ template.walk, hasWireWidth f = true)
    (hlen : totalLength template.walk ≤ payload.len) :
    parseOptions header payload cache
      = some ((cache.Get header.SetId).2, some (specOptions template payload.elems), true) := by
  obtain ⟨data, spare⟩ := payload
  unfold OptionsTemplate.walk at hwidth hlen
  rw [totalLength_append] at hlen
  have hlen2 : totalLength template.ScopeField + totalLength template.Field ≤ data.length :=
    hlen
  have h1 := optionsLoop_eq_specWalk template.ScopeField data 0 spare []
    (fun f hf => hwidth f (List.mem_append_left _ hf)) (by omega)
  have h2 := optionsLoop_eq_specWalk template.Field data (0 + totalLength template.ScopeField)
    spare (specWalk template.ScopeField 0 data [])
    (fun f hf => hwidth f (List.mem_append_right _ hf)) (by omega)
  rw [List.drop_zero] at h1
  unfold parseOptions
  rcases hg : cache.Get header.SetId with ⟨found, cache2⟩
  rw [hg] at hcached
  simp only [] at hcached
  subst hcached
  simp only [h1, h2, Option.bind_eq_bind, Option.some_bind, specOptions, OptionsTemplate.walk,
    specWalk_append]

/-- C1, witness: the template of `TEMPLATE_BYTES` and the body of
`DATA_BYTES`; decoding `TEMPLATE_BYTES` then `DATA_BYTES` gives
samplingInterval = 10, flowActiveTimeout = 60, flowIdleTimeout = 15,
exportedMessageTotalCount = 250, exportedFlowRecordTotalCount = 10,
exporterIPv4Address = 192.168.0.1, exporterIPv6Address = ::,
exportProtocolVersion = 10 and exportTransportProtocol = 17. -/
theorem parseOptions_eq_specOptions_witness :
    (testCache.Get (headerFor 512).SetId).1 = some TEST_TEMPLATE
      ∧ (∀ f ∈ TEST_TEMPLATE.walk, hasWireWidth f = true)
      ∧ totalLength TEST_TEMPLATE.walk ≤ (ByteSlice.ofList (DATA_BYTES.drop 20)).len
      ∧ parseOptions (headerFor 512) (ByteSlice.ofList (DATA_BYTES.drop 20)) testCache
          = some ((testCache.Get (headerFor 512).SetId).2,
              some (specOptions TEST_TEMPLATE (DATA_BYTES.drop 20)), true)
      ∧ (parsePayload (ByteSlice.ofList DATA_BYTES) testCache).map (fun r => r.2)
          = some (some
              [("exportingProcessId", Value.int64 72),
               ("exportedMessageTotalCount", Value.uint64 250),
               ("exportedFlowRecordTotalCount", Value.uint64 10),
               ("exporterIPv4Address", Value.ip [192, 168, 0, 1]),
               ("exporterIPv6Address",
                 Value.ip [0, 0, 0, 0, 0, 0, 0, 0, 0, 0, 0, 0, 0, 0, 0, 0]),
               ("samplingInterval", Value.uint32 10),
               ("flowActiveTimeout", Value.uint16 60),
               ("flowIdleTimeout", Value.uint16 15),
               ("exportProtocolVersion", Value.uint8 10),
               ("exportTransportProtocol", Value.uint8 17)], true) :=
  ⟨by decide, by decide, by decide,
    parseOptions_eq_specOptions (headerFor 512) (ByteSlice.ofList (DATA_BYTES.drop 20))
      testCache TEST_TEMPLATE (by decide) (by decide) (by decide),
    by decide⟩

/-! ## Lemmas on inserting an unrecognised field -/

theorem decodeSingleOption_unrecognised (bs : ByteSlice) (u : TemplateField) (o : Options)
    (hu : isRecognised u = false) : decodeSingleOption bs u o = some o := by
  obtain ⟨e, l, en⟩ := u
  simp only [isRecognised, registry] at hu
  unfold decodeSingleOption
  simp only []
  by_cases hen : en = 0
  · rw [if_pos hen] at hu
    by_cases h34 : e = 34
    · rw [if_pos h34] at hu; cases hu
    rw [if_neg h34] at hu
    by_cases h36 : e = 36
    · rw [if_pos h36] at hu; cases hu
    rw [if_neg h36] at hu
    by_cases h37 : e = 37
    · rw [if_pos h37] at hu; cases hu
    rw [if_neg h37] at hu
    by_cases h41 : e = 41
    · rw [if_pos h41] at hu; cases hu
    rw [if_neg h41] at hu
    by_cases h42 : e = 42
    · rw [if_pos h42] at hu; cases hu
    rw [if_neg h42] at hu
    by_cases h130 : e = 130
    · rw [if_pos h130] at hu; cases hu
    rw [if_neg h130] at hu
    by_cases h131 : e = 131
    · rw [if_pos h131] at hu; cases hu
    rw [if_neg h131] at hu
    by_cases h144 : e = 144
    · rw [if_pos h144] at hu; cases hu
    rw [if_neg h144] at hu
    by_cases h160 : e = 160
    · rw [if_pos h160] at hu; cases hu
    rw [if_neg h160] at hu
    by_cases h214 : e = 214
    · rw [if_pos h214] at hu; cases hu
    rw [if_neg h214] at hu
    by_cases h215 : e = 215
    · rw [if_pos h215] at hu; cases hu
    simp only [if_pos hen, if_neg h34, if_neg h36, if_neg h37, if_neg h41, if_neg h42,
      if_neg h130, if_neg h131, if_neg h144, if_neg h160, if_neg h214, if_neg h215, ite_self]
  · simp only [if_neg hen, ite_self]

theorem index_zero_of_take_eq (bs1 bs2 : ByteSlice) (n : Nat) (hn : 1 ≤ n)
    (ht : bs1.elems.take n = bs2.elems.take n) : bs1.index 0 = bs2.index 0 := by
  have h1 : (bs1.elems.take n).get? 0 = bs1.elems.get? 0 := by
    simp only [List.get?_eq_getElem?]
    exact List.getElem?_take_of_lt (by omega)
  have h2 : (bs2.elems.take n).get? 0 = bs2.elems.get? 0 := by
    simp only [List.get?_eq_getElem?]
    exact List.getElem?_take_of_lt (by omega)
  unfold ByteSlice.index
  rw [← h1, ← h2, ht]

/-- What `decodeSingleOption` does with a field whose bytes are all present
depends on the slice only through the `Length` bytes of the field, provided
a field decoded from `byteSlice[0]` declares at least one byte. -/
theorem decodeSingleOption_congr (bs1 bs2 : ByteSlice) (f : TemplateField) (o : Options)
    (h1 : f.Length ≤ bs1.len) (h2 : f.Length ≤ bs2.len)
    (ht : bs1.elems.take f.Length = bs2.elems.take f.Length)
    (hb : firstByteDeclared f = true) :
    decodeSingleOption bs1 f o = decodeSingleOption bs2 f o := by
  have hs1 := sliceTo_of_le_len bs1 _ h1
  have hs2 := sliceTo_of_le_len bs2 _ h2
  have hidx : f.EnterpriseNumber = 0 → (f.ElementId = 214 ∨ f.ElementId = 215) →
      bs1.index 0 = bs2.index 0 := by
    intro he hid
    have : 1 ≤ f.Length := by
      simpa [firstByteDeclared, he, hid] using hb
    exact index_zero_of_take_eq bs1 bs2 f.Length this ht
  unfold decodeSingleOption
  rw [if_neg (show ¬ bs1.len < f.Length by omega), if_neg (show ¬ bs2.len < f.Length by omega),
    hs1, hs2, ht]
  by_cases he : f.EnterpriseNumber = 0
  · by_cases h214 : f.ElementId = 214
    · rw [hidx he (Or.inl h214)]
      rfl
    · by_cases h215 : f.ElementId = 215
      · rw [hidx he (Or.inr h215)]
        rfl
      · simp only [if_neg h214, if_neg h215]
        rfl
  · simp only [if_neg he]

theorem optionsLoop_cons (f : TemplateField) (fs : List TemplateField) (bs : ByteSlice)
    (o : Options) :
    optionsLoop (f :: fs) bs o
      = (decodeSingleOption bs f o).bind (fun o1 =>
          if bs.len < f.Length then some (bs, o1)
          else (bs.sliceFrom f.Length).bind (fun rest => optionsLoop fs rest o1)) :=
  rfl

/-- The spare capacity of the slice is never read by `decodeSingleOption`. -/
theorem decodeSingleOption_spare (data s1 s2 : List Byte) (f : TemplateField) (o : Options) :
    decodeSingleOption ⟨data, s1⟩ f o = decodeSingleOption ⟨data, s2⟩ f o := by
  by_cases h : data.length < f.Length
  · unfold decodeSingleOption
    rw [if_pos (show (ByteSlice.mk data s1).len < f.Length from h),
      if_pos (show (ByteSlice.mk data s2).len < f.Length from h)]
  · have h1 : f.Length ≤ (ByteSlice.mk data s1).len := Nat.le_of_not_lt h
    have h2 : f.Length ≤ (ByteSlice.mk data s2).len := Nat.le_of_not_lt h
    unfold decodeSingleOption
    rw [if_neg (show ¬ (ByteSlice.mk data s1).len < f.Length from h),
      if_neg (show ¬ (ByteSlice.mk data s2).len < f.Length from h),
      sliceTo_of_le_len _ _ h1, sliceTo_of_le_len _ _ h2]
    rfl

/-- The spare capacity of the slice does not influence the map a value
loop produces. -/
theorem optionsLoop_spare (fs : List TemplateField) :
    ∀ (data s1 s2 : List Byte) (o : Options),
      (optionsLoop fs ⟨data, s1⟩ o).map (fun r => r.2)
        = (optionsLoop fs ⟨data, s2⟩ o).map (fun r => r.2) := by
  induction fs with
  | nil =>
    intro data s1 s2 o
    rfl
  | cons f fs ih =>
    intro data s1 s2 o
    unfold optionsLoop
    rw [decodeSingleOption_spare data s1 s2 f o]
    rcases decodeSingleOption ⟨data, s2⟩ f o with _ | o1
    · rfl
    · simp only [Option.bind_eq_bind, Option.some_bind]
      by_cases h : data.length < f.Length
      · rw [if_pos (show (ByteSlice.mk data s1).len < f.Length from h),
          if_pos (show (ByteSlice.mk data s2).len < f.Length from h)]
        rfl
      · rw [if_neg (show ¬ (ByteSlice.mk data s1).len < f.Length from h),
          if_neg (show ¬ (ByteSlice.mk data s2).len < f.Length from h),
          sliceFrom_of_le_len _ _ (show f.Length ≤ (ByteSlice.mk data s1).len from Nat.le_of_not_lt h),
          sliceFrom_of_le_len _ _ (show f.Length ≤ (ByteSlice.mk data s2).len from Nat.le_of_not_lt h)]
        simp only [Option.some_bind]
        exact ih (data.drop f.Length) s1 s2 o1

/-- When the bytes of all fields of the first list are present, a value
loop over two lists in a row is the loop over the first followed by the
loop over the second. -/
theorem optionsLoop_append (a b : List TemplateField) :
    ∀ (bs : ByteSlice) (o : Options), totalLength a ≤ bs.len →
      optionsLoop (a ++ b) bs o = (optionsLoop a bs o).bind (fun r => optionsLoop b r.1 r.2) := by
  induction a with
  | nil =>
    intro bs o _
    simp [optionsLoop]
  | cons f a ih =>
    intro bs o h
    rw [totalLength_cons] at h
    have hf : f.Length ≤ bs.len := by omega
    rw [List.cons_append, optionsLoop_cons, optionsLoop_cons]
    rcases decodeSingleOption bs f o with _ | o1
    · rfl
    · simp only [Option.some_bind]
      have hrest : totalLength a ≤ (ByteSlice.mk (bs.elems.drop f.Length) bs.spare).len := by
        unfold ByteSlice.len at h ⊢
        simp only [List.length_drop]
        omega
      simp only [if_neg (show ¬ bs.len < f.Length by omega), sliceFrom_of_le_len _ _ hf,
        Option.some_bind]
      exact ih ⟨bs.elems.drop f.Length, bs.spare⟩ o1 hrest

/-- When the data body covers all declared Lengths, the two loops of
`parseOptions` amount to one loop over `ScopeField ++ Field`. -/
theorem parseOptions_covered (header : IpfixHeader) (payload : ByteSlice) (cache : Cache)
    (t : OptionsTemplate) (hcached : (cache.Get header.SetId).1 = some t)
    (hcover : totalLength t.walk ≤ payload.len) :
    (parseOptions header payload cache).map (fun r => r.2)
      = (optionsLoop t.walk payload []).map (fun r => (some r.2, true)) := by
  unfold OptionsTemplate.walk at hcover ⊢
  rw [totalLength_append] at hcover
  rw [optionsLoop_append _ _ _ _ (by omega)]
  unfold parseOptions
  rcases hg : cache.Get header.SetId with ⟨found, cache2⟩
  rw [hg] at hcached
  simp only [] at hcached
  subst hcached
  simp only []
  rcases optionsLoop t.ScopeField payload [] with _ | ⟨bs1, o1⟩
  · rfl
  · simp only [Option.bind_eq_bind, Option.some_bind]
    rcases optionsLoop t.Field bs1 o1 with _ | ⟨bs2, o2⟩
    · rfl
    · rfl

theorem length_insertBytes (data : List Byte) (n : Nat) (ins : List Byte) :
    (insertBytes data n ins).length = data.length + ins.length := by
  simp only [insertBytes, List.length_append, List.length_take, List.length_drop]
  omega

theorem take_insertBytes (data : List Byte) (n k : Nat) (ins : List Byte)
    (hk : k ≤ n) (hn : n ≤ data.length) :
    (insertBytes data n ins).take k = data.take k := by
  unfold insertBytes
  rw [List.append_assoc, List.take_append_of_le_length (by rw [List.length_take]; omega),
    List.take_take, Nat.min_eq_left hk]

theorem drop_insertBytes (data : List Byte) (a n : Nat) (ins : List Byte)
    (hn : a + n ≤ data.length) :
    (insertBytes data (a + n) ins).drop a = insertBytes (data.drop a) n ins := by
  unfold insertBytes
  rw [List.append_assoc, List.drop_append_of_le_length (by rw [List.length_take]; omega),
    List.drop_take, List.drop_drop, List.append_assoc]
  rw [Nat.add_sub_cancel_left]

/-- A value loop over `X ++ u :: Y` on a body with the bytes of the
unrecognised field `u` inserted at the offset after `X` produces the map
that the loop over `X ++ Y` produces on the body itself. -/
theorem optionsLoop_insert (u : TemplateField) (ins : List Byte) (Y : List TemplateField)
    (hu : isRecognised u = false) (hins : ins.length = u.Length) (X : List TemplateField) :
    ∀ (data s1 s2 : List Byte) (o : Options),
      (∀ f ∈ X, firstByteDeclared f = true) → totalLength X ≤ data.length →
      (optionsLoop (X ++ u :: Y) ⟨insertBytes data (totalLength X) ins, s2⟩ o).map
          (fun r => r.2)
        = (optionsLoop (X ++ Y) ⟨data, s1⟩ o).map (fun r => r.2) := by
  induction X with
  | nil =>
    intro data s1 s2 o _ _
    have hd : insertBytes data (totalLength []) ins = ins ++ data := by
      simp [insertBytes, totalLength]
    have hl : u.Length ≤ (ByteSlice.mk (ins ++ data) s2).len := by
      simp only [ByteSlice.len, List.length_append]
      omega
    rw [hd, List.nil_append, List.nil_append, optionsLoop_cons,
      decodeSingleOption_unrecognised _ u o hu, Option.some_bind,
      if_neg (show ¬ (ByteSlice.mk (ins ++ data) s2).len < u.Length by omega),
      sliceFrom_of_le_len _ _ hl, Option.some_bind]
    simp only []
    rw [← hins, List.drop_left]
    exact optionsLoop_spare Y data s2 s1 o
  | cons f X ih =>
    intro data s1 s2 o hb hcover
    rw [totalLength_cons] at hcover ⊢
    have hlen := length_insertBytes data (f.Length + totalLength X) ins
    have h1 : f.Length ≤ (ByteSlice.mk (insertBytes data (f.Length + totalLength X) ins) s2).len := by
      simp only [ByteSlice.len]
      omega
    have h2 : f.Length ≤ (ByteSlice.mk data s1).len := by
      simp only [ByteSlice.len]
      omega
    have ht := take_insertBytes data (f.Length + totalLength X) f.Length ins (by omega) hcover
    have hstep := decodeSingleOption_congr
      ⟨insertBytes data (f.Length + totalLength X) ins, s2⟩ ⟨data, s1⟩ f o h1 h2 ht
      (hb f (List.mem_cons_self f X))
    rw [List.cons_append, List.cons_append, optionsLoop_cons, optionsLoop_cons, hstep]
    rcases decodeSingleOption ⟨data, s1⟩ f o with _ | o1
    · rfl
    · simp only [Option.some_bind,
        if_neg (show ¬ (ByteSlice.mk (insertBytes data (f.Length + totalLength X) ins) s2).len
          < f.Length by omega),
        if_neg (show ¬ (ByteSlice.mk data s1).len < f.Length by omega),
        sliceFrom_of_le_len _ _ h1, sliceFrom_of_le_len _ _ h2,
        drop_insertBytes data f.Length (totalLength X) ins hcover]
      exact ih (data.drop f.Length) s1 s2 o1 (fun g hg => hb g (List.mem_cons_of_mem f hg))
        (by rw [List.length_drop]; omega)

/-- The walk of a template with a field inserted is the walk of the
template with that field inserted after the fields that precede the
position, whose Lengths sum to the byte offset of the position. -/
theorem walk_insertField (t : OptionsTemplate) (inScope : Bool) (i : Nat) (u : TemplateField) :
    ∃ X Y, t.walk = X ++ Y ∧ (insertField t inScope i u).walk = X ++ u :: Y
      ∧ fieldOffset t inScope i = totalLength X := by
  cases inScope with
  | true =>
    refine ⟨t.ScopeField.take i, t.ScopeField.drop i ++ t.Field, ?_, ?_, ?_⟩
    · rw [← List.append_assoc, List.take_append_drop]
      rfl
    · simp [OptionsTemplate.walk, insertField]
    · simp [fieldOffset]
  | false =>
    refine ⟨t.ScopeField ++ t.Field.take i, t.Field.drop i, ?_, ?_, ?_⟩
    · simp [OptionsTemplate.walk]
    · simp [OptionsTemplate.walk, insertField]
    · simp [fieldOffset, totalLength_append]

/-! ## Theorems: alignment under unrecognised fields -/

/-- C4, as stated, fails: with the template `Field = [(214, Length 0),
(36, Length 2)]` and the body `0, 60`, inserting an unrecognised field of
Length 1 at position 1 and the byte 7 at the byte offset of position 1
(offset 0) changes the decoded exportProtocolVersion from 0 to 7, because
element 214 is read from `byteSlice[0]` whatever its declared Length. -/
theorem unknown_field_changes_first_byte_read :
    isRecognised ⟨9999, 1, 0⟩ = false
      ∧ totalLength EMPTY_FIRST_BYTE_TEMPLATE.walk ≤ [(0 : Byte), 60].length
      ∧ (parseOptions (headerFor 512) (ByteSlice.ofList [0, 60])
            ((Cache.New 10240).Add 512 EMPTY_FIRST_BYTE_TEMPLATE)).map (fun r => r.2)
          = some (some [("exportProtocolVersion", Value.uint8 0),
              ("flowActiveTimeout", Value.uint16 60)], true)
      ∧ (parseOptions (headerFor 512)
            (ByteSlice.ofList
              (insertBytes [0, 60] (fieldOffset EMPTY_FIRST_BYTE_TEMPLATE false 1) [7]))
            ((Cache.New 10240).Add 512
              (insertField EMPTY_FIRST_BYTE_TEMPLATE false 1 ⟨9999, 1, 0⟩))).map (fun r => r.2)
          = some (some [("exportProtocolVersion", Value.uint8 7),
              ("flowActiveTimeout", Value.uint16 60)], true)
      ∧ (parseOptions (headerFor 512)
            (ByteSlice.ofList
              (insertBytes [0, 60] (fieldOffset EMPTY_FIRST_BYTE_TEMPLATE false 1) [7]))
            ((Cache.New 10240).Add 512
              (insertField EMPTY_FIRST_BYTE_TEMPLATE false 1 ⟨9999, 1, 0⟩))).map (fun r => r.2)
          ≠ (parseOptions (headerFor 512) (ByteSlice.ofList [0, 60])
            ((Cache.New 10240).Add 512 EMPTY_FIRST_BYTE_TEMPLATE)).map (fun r => r.2) :=
  ⟨by decide, by decide, by decide, by decide, by decide⟩

/-- C4, amended: for every template in which each field of enterprise 0
with element 214 or 215 declares a Length of at least 1, every data body
that covers all declared Lengths, every position of `ScopeField` or of
`Field` and every unrecognised field `u`, decoding the template with `u`
inserted at that position against the body with `u.Length` bytes inserted
at the byte offset of that position has the same outcome (the same
`Options` and success indicator) as decoding the template against the
body. -/
theorem parseOptions_unknown_field_inserted (header : IpfixHeader) (t : OptionsTemplate)
    (data ins s1 s2 : List Byte) (u : TemplateField) (inScope : Bool) (i : Nat)
    (cache cache2 : Cache)
    (hcached : (cache.Get header.SetId).1 = some t)
    (hcached2 : (cache2.Get header.SetId).1 = some (insertField t inScope i u))
    (hcover : totalLength t.walk ≤ data.length)
    (hunknown : isRecognised u = false)
    (hins : ins.length = u.Length)
    (hfirst : ∀ f ∈ t.walk, firstByteDeclared f = true) :
    (parseOptions header ⟨insertBytes data (fieldOffset t inScope i) ins, s2⟩ cache2).map
        (fun r => r.2)
      = (parseOptions header ⟨data, s1⟩ cache).map (fun r => r.2) := by
  obtain ⟨X, Y, hwalk, hwalk2, hoff⟩ := walk_insertField t inScope i u
  have hcover2 : totalLength (insertField t inScope i u).walk
      ≤ (ByteSlice.mk (insertBytes data (fieldOffset t inScope i) ins) s2).len := by
    rw [hwalk] at hcover
    rw [hwalk2, totalLength_append, totalLength_cons]
    rw [totalLength_append] at hcover
    simp only [ByteSlice.len, length_insertBytes]
    omega
  rw [parseOptions_covered header _ cache2 _ hcached2 hcover2,
    parseOptions_covered header ⟨data, s1⟩ cache t hcached hcover, hwalk2, hwalk, hoff]
  have hX : totalLength X ≤ data.length := by
    rw [hwalk, totalLength_append] at hcover
    omega
  have h := optionsLoop_insert u ins Y hunknown hins X data s1 s2 []
    (fun f hf => hfirst f (by rw [hwalk]; exact List.mem_append_left _ hf)) hX
  rcases h1 : optionsLoop (X ++ u :: Y) ⟨insertBytes data (totalLength X) ins, s2⟩ []
    with _ | r1 <;>
  rcases h2 : optionsLoop (X ++ Y) ⟨data, s1⟩ [] with _ | r2 <;>
  rw [h1, h2] at h <;> simp at h ⊢
  exact h

/-- C4, amended, witness: the template of `TEMPLATE_BYTES`, the body of
`DATA_BYTES`, and an unrecognised field of Length 3 inserted before
position 2 of `Field` (byte offset 20), with the bytes 1, 2, 3. -/
theorem parseOptions_unknown_field_inserted_witness :
    (testCache.Get (headerFor 512).SetId).1 = some TEST_TEMPLATE
      ∧ (((Cache.New 10240).Add 512 (insertField TEST_TEMPLATE false 2 ⟨9999, 3, 0⟩)).Get
          (headerFor 512).SetId).1 = some (insertField TEST_TEMPLATE false 2 ⟨9999, 3, 0⟩)
      ∧ totalLength TEST_TEMPLATE.walk ≤ (DATA_BYTES.drop 20).length
      ∧ isRecognised ⟨9999, 3, 0⟩ = false
      ∧ (∀ f ∈ TEST_TEMPLATE.walk, firstByteDeclared f = true)
      ∧ fieldOffset TEST_TEMPLATE false 2 = 20
      ∧ (parseOptions (headerFor 512)
            ⟨insertBytes (DATA_BYTES.drop 20) (fieldOffset TEST_TEMPLATE false 2) [1, 2, 3], []⟩
            ((Cache.New 10240).Add 512 (insertField TEST_TEMPLATE false 2 ⟨9999, 3, 0⟩))).map
            (fun r => r.2)
          = (parseOptions (headerFor 512) ⟨DATA_BYTES.drop 20, []⟩ testCache).map
            (fun r => r.2) :=
  ⟨by decide, by decide, by decide, by decide, by decide, by decide,
    parseOptions_unknown_field_inserted (headerFor 512) TEST_TEMPLATE (DATA_BYTES.drop 20)
      [1, 2, 3] [] [] ⟨9999, 3, 0⟩ false 2 testCache
      ((Cache.New 10240).Add 512 (insertField TEST_TEMPLATE false 2 ⟨9999, 3, 0⟩))
      (by decide) (by decide) (by decide) (by decide) (by decide) (by decide)⟩

/-! ## Theorems: the size check and the field counts of the template decoder -/

/-- C11: on `WRAPAROUND_TEMPLATE_BODY` (FieldCount 0, ScopeFieldCount 1)
`parseOptionsTemplate` returns success and stores a template with five
regular fields, decoded from the bytes after the scope descriptor: the
count of the second loop is FieldCount - ScopeFieldCount in 16-bit
arithmetic, 65535, not 0. -/
theorem parseOptionsTemplate_count_wraps (c : Cache) :
    parseOptionsTemplate (headerFor 3) (ByteSlice.ofList WRAPAROUND_TEMPLATE_BODY) c
        = some (c.Add 512
            ⟨512, 0, [⟨0, 0, 0⟩, ⟨0, 0, 0⟩, ⟨0, 0, 0⟩, ⟨0, 0, 0⟩, ⟨1, 4, 0x80010004⟩],
             1, [⟨144, 4, 0⟩]⟩, none, true)
      ∧ (0 + 2 ^ 16 - 1) % 2 ^ 16 = 65535 :=
  ⟨rfl, rfl⟩

/-- C17, as stated, fails: the 26-byte body `EXACT26_TEMPLATE_BODY`, which
holds all five descriptors it declares, is rejected for size. -/
theorem parseOptionsTemplate_rejects_26_bytes :
    (ByteSlice.ofList EXACT26_TEMPLATE_BODY).len = 26
      ∧ parseOptionsTemplate (headerFor 3) (ByteSlice.ofList EXACT26_TEMPLATE_BODY)
          (Cache.New 10240) = some (Cache.New 10240, none, false) := by
  decide

/-! ## Lemmas on the message header -/

/-- What `parsePayload` does with a buffer of at least 20 bytes, the header
fields read as big-endian values of the buffer. -/
theorem parsePayload_of_header (payload : ByteSlice) (cache : Cache) (hlen : 20 ≤ payload.len) :
    parsePayload payload cache =
      if beAt payload.elems 0 2 ≠ 10 then some (cache, none, false)
      else if payload.len ≤ 20 then some (cache, none, false)
      else if beAt payload.elems 16 2 = 3 then
        parseOptionsTemplate (headerOf payload.elems)
          ⟨payload.elems.drop 20, payload.spare⟩ cache
      else if beAt payload.elems 16 2 ≥ 256 then
        parseOptions (headerOf payload.elems) ⟨payload.elems.drop 20, payload.spare⟩ cache
      else some (cache, none, false) := by
  unfold parsePayload
  rw [if_neg (show ¬ payload.len < 18 by omega), read_Uint16 _ 0 2 (by omega) (by omega),
    read_Uint16 _ 2 4 (by omega) (by omega), read_Uint32 _ 4 8 (by omega) (by omega),
    read_Uint32 _ 8 12 (by omega) (by omega), read_Uint32 _ 12 16 (by omega) (by omega),
    read_Uint16 _ 16 20 (by omega) (by omega), sliceFrom_of_le_len _ 20 (by omega)]
  simp only [Option.bind_eq_bind, Option.some_bind, headerOf]

/-- C14: for every buffer of at least 20 bytes whose Version (bytes 0-1,
big-endian) is not 10, `parsePayload` returns the failure indicator with
the nil result and the cache as it was, whatever the rest of the buffer. -/
theorem parsePayload_wrong_version (payload : ByteSlice) (cache : Cache)
    (hlen : 20 ≤ payload.len) (hversion : beAt payload.elems 0 2 ≠ 10) :
    parsePayload payload cache = some (cache, none, false) := by
  rw [parsePayload_of_header payload cache hlen, if_pos hversion]

/-- C14, witness: the 20-byte header `VERSION9_BYTES` and the cache that
holds the template of `TEMPLATE_BYTES`. -/
theorem parsePayload_wrong_version_witness :
    20 ≤ (ByteSlice.ofList VERSION9_BYTES).len
      ∧ beAt VERSION9_BYTES 0 2 = 9
      ∧ parsePayload (ByteSlice.ofList VERSION9_BYTES) testCache = some (testCache, none, false) :=
  ⟨by decide, by decide,
    parsePayload_wrong_version (ByteSlice.ofList VERSION9_BYTES) testCache
      (by decide) (by decide)⟩

/-- C15: for every Version-10 buffer longer than 20 bytes, with SetId the
big-endian value of bytes 16-17, `parsePayload` is `parseOptionsTemplate`
on `payload[20:]` when SetId = 3, `parseOptions` on `payload[20:]` when
SetId >= 256, and for every other SetId returns the failure indicator with
the nil result and the cache as it was. -/
theorem parsePayload_routing (payload : ByteSlice) (cache : Cache)
    (hlen : 20 < payload.len) (hversion : beAt payload.elems 0 2 = 10) :
    (beAt payload.elems 16 2 = 3 →
        parsePayload payload cache
          = parseOptionsTemplate (headerOf payload.elems)
              ⟨payload.elems.drop 20, payload.spare⟩ cache)
      ∧ (256 ≤ beAt payload.elems 16 2 →
        parsePayload payload cache
          = parseOptions (headerOf payload.elems) ⟨payload.elems.drop 20, payload.spare⟩ cache)
      ∧ (beAt payload.elems 16 2 ≠ 3 → beAt payload.elems 16 2 < 256 →
        parsePayload payload cache = some (cache, none, false)) := by
  have h := parsePayload_of_header payload cache (Nat.le_of_lt hlen)
  rw [if_neg (by omega), if_neg (show ¬ payload.len ≤ 20 by omega)] at h
  refine ⟨fun h3 => ?_, fun h256 => ?_, fun h3 h256 => ?_⟩
  · rw [h, if_pos h3]
  · rw [h, if_neg (by omega), if_pos h256]
  · rw [h, if_neg h3, if_neg (by omega)]

/-- C15, witness: `TEMPLATE_BYTES` (SetId 3) against a fresh cache. -/
theorem parsePayload_routing_witness :
    20 < (ByteSlice.ofList TEMPLATE_BYTES).len
      ∧ beAt TEMPLATE_BYTES 0 2 = 10
      ∧ beAt TEMPLATE_BYTES 16 2 = 3
      ∧ parsePayload (ByteSlice.ofList TEMPLATE_BYTES) (Cache.New 10240)
          = parseOptionsTemplate (headerOf TEMPLATE_BYTES)
              ⟨TEMPLATE_BYTES.drop 20, []⟩ (Cache.New 10240) :=
  ⟨by decide, by decide, by decide,
    (parsePayload_routing (ByteSlice.ofList TEMPLATE_BYTES) (Cache.New 10240)
      (by decide) (by decide)).1 (by decide)⟩

theorem Options.get_set_self (o : Options) (key : String) (value : Value) :
    Options.get (Options.set o key value) key = some value := by
  induction o with
  | nil => simp [Options.set, Options.get]
  | cons e rest ih =>
    obtain ⟨k, v⟩ := e
    by_cases h : k = key
    · simp [Options.set, Options.get, h]
    · simp [Options.set, Options.get, h, ih]

theorem Options.get_set_other (o : Options) (key other : String) (value : Value)
    (hne : key ≠ other) :
    Options.get (Options.set o key value) other = Options.get o other := by
  induction o with
  | nil => simp [Options.set, Options.get, hne]
  | cons e rest ih =>
    obtain ⟨k, v⟩ := e
    by_cases h : k = key
    · subst h
      simp [Options.set, Options.get, hne]
    · simp [Options.set, Options.get, h, ih]

theorem sliceTo_Uint16_of_le (bs : ByteSlice) (n : Nat) (h2 : 2 ≤ n) (h : n ≤ bs.len) :
    (bs.sliceTo n).bind Uint16 = some (beValue (bs.elems.take 2)) := by
  have hl : n ≤ bs.elems.length := h
  rw [sliceTo_of_le_len bs n h, Option.some_bind,
    Uint16_eq_beValue _ _ (by rw [List.length_take]; omega), List.take_take,
    Nat.min_eq_left h2]

theorem sliceTo_Uint32_of_le (bs : ByteSlice) (n : Nat) (h4 : 4 ≤ n) (h : n ≤ bs.len) :
    (bs.sliceTo n).bind Uint32 = some (beValue (bs.elems.take 4)) := by
  have hl : n ≤ bs.elems.length := h
  rw [sliceTo_of_le_len bs n h, Option.some_bind,
    Uint32_eq_beValue _ _ (by rw [List.length_take]; omega), List.take_take,
    Nat.min_eq_left h4]

theorem sliceTo_Uint64_of_le (bs : ByteSlice) (n : Nat) (h8 : 8 ≤ n) (h : n ≤ bs.len) :
    (bs.sliceTo n).bind Uint64 = some (beValue (bs.elems.take 8)) := by
  have hl : n ≤ bs.elems.length := h
  rw [sliceTo_of_le_len bs n h, Option.some_bind,
    Uint64_eq_beValue _ _ (by rw [List.length_take]; omega), List.take_take,
    Nat.min_eq_left h8]

/-! ## Theorems: single fields of the value decoder -/

theorem beValue_take8_lt (l : List Byte) (h : 8 ≤ l.length) : beValue (l.take 8) < 2 ^ 64 := by
  obtain ⟨a, b, c, d, e, f, g, k, r, rfl⟩ := exists_cons8 l h
  have ha := a.isLt
  have hb := b.isLt
  have hc := c.isLt
  have hd := d.isLt
  have he := e.isLt
  have hf := f.isLt
  have hg := g.isLt
  have hk := k.isLt
  simp only [beValue, List.take_succ_cons, List.take_zero, List.foldl_cons, List.foldl_nil]
  omega

/-- C12: for a field of enterprise 0, element 160 and Length 8 with 8
bytes available, `decodeSingleOption` stores the big-endian value of those
bytes, read as a signed 64-bit integer (a value `x` below 2^63 as `x`, a
value from 2^63 on as `x - 2^64`, so the result lies in [-2^63, 2^63)),
under the key exportingProcessId, whose earlier value (such as that of an
element-144 field) it replaces, and leaves the key
systemInitTimeMilliseconds as it was (absent if it was absent). -/
theorem decodeSingleOption_element_160 (bs : ByteSlice) (f : TemplateField) (o : Options)
    (hen : f.EnterpriseNumber = 0) (hid : f.ElementId = 160) (hlen : f.Length = 8)
    (hbytes : 8 ≤ bs.len) :
    decodeSingleOption bs f o
        = some (o.set "exportingProcessId"
            (Value.int64
              (if beValue (bs.elems.take 8) < 2 ^ 63 then (beValue (bs.elems.take 8) : Int)
                else (beValue (bs.elems.take 8) : Int) - 2 ^ 64)))
      ∧ (-(2 : Int) ^ 63
          ≤ (if beValue (bs.elems.take 8) < 2 ^ 63 then (beValue (bs.elems.take 8) : Int)
              else (beValue (bs.elems.take 8) : Int) - 2 ^ 64)
        ∧ (if beValue (bs.elems.take 8) < 2 ^ 63 then (beValue (bs.elems.take 8) : Int)
              else (beValue (bs.elems.take 8) : Int) - 2 ^ 64) < (2 : Int) ^ 63)
      ∧ (∀ v : Value,
          Options.get (o.set "exportingProcessId" v) "exportingProcessId" = some v
            ∧ Options.get (o.set "exportingProcessId" v) "systemInitTimeMilliseconds"
              = Options.get o "systemInitTimeMilliseconds") := by
  have hlt := beValue_take8_lt bs.elems hbytes
  refine ⟨?_, ?_, fun v => ⟨Options.get_set_self _ _ _,
    Options.get_set_other _ _ _ _ (by decide)⟩⟩
  · have hsigned : toInt64 (beValue (bs.elems.take 8))
        = (if beValue (bs.elems.take 8) < 2 ^ 63 then (beValue (bs.elems.take 8) : Int)
            else (beValue (bs.elems.take 8) : Int) - 2 ^ 64) := by
      unfold toInt64
      rw [Nat.mod_eq_of_lt hlt]
    obtain ⟨e, l, en⟩ := f
    simp only [] at hen hid hlen
    subst hen hid hlen
    unfold decodeSingleOption
    simp only []
    rw [if_neg (show ¬ bs.len < 8 by omega), ← hsigned]
    simp [sliceTo_Uint64 bs hbytes]
  · by_cases h63 : beValue (bs.elems.take 8) < 2 ^ 63
    · rw [if_pos h63]
      omega
    · rw [if_neg h63]
      omega

/-- C12, witness: on the bytes `ff ff ff ff ff ff ff fe` the stored value
is int64 -2 and replaces the uint32 2 of an element-144 field. In
`DATA_BYTES` the scope field 144 carries 2 and the field 160, at offset 20
of the body, carries 72; the record decodes to exportingProcessId =
int64 72 and has no key systemInitTimeMilliseconds. -/
theorem decodeSingleOption_element_160_witness :
    8 ≤ (ByteSlice.ofList [255, 255, 255, 255, 255, 255, 255, 254, 1]).len
      ∧ decodeSingleOption (ByteSlice.ofList [255, 255, 255, 255, 255, 255, 255, 254, 1])
            ⟨160, 8, 0⟩ [("exportingProcessId", Value.uint32 2)]
          = some (Options.set [("exportingProcessId", Value.uint32 2)] "exportingProcessId"
              (Value.int64
                (if beValue ([(255 : Byte), 255, 255, 255, 255, 255, 255, 254, 1].take 8) < 2 ^ 63
                  then (beValue ([(255 : Byte), 255, 255, 255, 255, 255, 255, 254, 1].take 8) : Int)
                  else (beValue ([(255 : Byte), 255, 255, 255, 255, 255, 255, 254, 1].take 8) : Int)
                    - 2 ^ 64)))
      ∧ decodeSingleOption (ByteSlice.ofList [255, 255, 255, 255, 255, 255, 255, 254, 1])
            ⟨160, 8, 0⟩ [("exportingProcessId", Value.uint32 2)]
          = some [("exportingProcessId", Value.int64 (-2))]
      ∧ decodeSingleOption (ByteSlice.ofList (DATA_BYTES.drop 20)) ⟨144, 4, 0⟩ []
          = some [("exportingProcessId", Value.uint32 2)]
      ∧ decodeSingleOption (ByteSlice.ofList (DATA_BYTES.drop 40)) ⟨160, 8, 0⟩
            [("exportingProcessId", Value.uint32 2)]
          = some [("exportingProcessId", Value.int64 72)]
      ∧ (parsePayload (ByteSlice.ofList DATA_BYTES) testCache).map
            (fun r => r.2.1.map (fun o => Options.get o "exportingProcessId"))
          = some (some (some (Value.int64 72)))
      ∧ (parsePayload (ByteSlice.ofList DATA_BYTES) testCache).map
            (fun r => r.2.1.map (fun o => Options.get o "systemInitTimeMilliseconds"))
          = some (some none) :=
  ⟨by decide,
    (decodeSingleOption_element_160
      (ByteSlice.ofList [255, 255, 255, 255, 255, 255, 255, 254, 1]) ⟨160, 8, 0⟩
      [("exportingProcessId", Value.uint32 2)] rfl rfl rfl (by decide)).1,
    by decide, by decide, by decide, by decide, by decide⟩

/-- C13: for a field of enterprise 0 and element 214 or 215 that declares
a Length of at least 1 with that many bytes available, the value recorded
under exportProtocolVersion (214) or exportTransportProtocol (215) is the
first byte of the slice as a `uint8`, whatever the other bytes are, and
the loop of `parseOptions` goes on with the next field on the slice cut by
the full declared Length. -/
theorem decodeSingleOption_first_byte (bs : ByteSlice) (f : TemplateField)
    (fields : List TemplateField) (o : Options) (b : Byte)
    (hen : f.EnterpriseNumber = 0) (hid : f.ElementId = 214 ∨ f.ElementId = 215)
    (hdeclared : 1 ≤ f.Length) (hbytes : f.Length ≤ bs.len)
    (hfirst : bs.elems.head? = some b) :
    decodeSingleOption bs f o
        = some (o.set
            (if f.ElementId = 214 then "exportProtocolVersion" else "exportTransportProtocol")
            (Value.uint8 b.val))
      ∧ optionsLoop (f :: fields) bs o
        = optionsLoop fields ⟨bs.elems.drop f.Length, bs.spare⟩
            (o.set
              (if f.ElementId = 214 then "exportProtocolVersion"
                else "exportTransportProtocol")
              (Value.uint8 b.val)) := by
  have hidx : bs.index 0 = some b := by
    obtain ⟨elems, spare⟩ := bs
    cases elems with
    | nil => simp at hfirst
    | cons a rest =>
      simp only [List.head?_cons, Option.some.injEq] at hfirst
      subst hfirst
      rfl
  have hstep : decodeSingleOption bs f o
      = some (o.set
          (if f.ElementId = 214 then "exportProtocolVersion" else "exportTransportProtocol")
          (Value.uint8 b.val)) := by
    obtain ⟨e, l, en⟩ := f
    simp only [] at hen hid hdeclared hbytes ⊢
    subst hen
    unfold decodeSingleOption
    simp only []
    rw [if_neg (show ¬ bs.len < l by omega)]
    rcases hid with h | h
    · subst h
      simp [hidx]
    · subst h
      simp [hidx]
  refine ⟨hstep, ?_⟩
  rw [optionsLoop_cons, hstep, Option.some_bind, if_neg (show ¬ bs.len < f.Length by omega),
    sliceFrom_of_le_len _ _ hbytes, Option.some_bind]

/-- C13, witness: a field 214 of declared Length 3 on the bytes
`0a ff ee 00 3c` followed by the field (36, 2): exportProtocolVersion is
10 and flowActiveTimeout is read from offset 3. -/
theorem decodeSingleOption_first_byte_witness :
    (1 : Nat) ≤ 3
      ∧ 3 ≤ (ByteSlice.ofList [10, 255, 238, 0, 60]).len
      ∧ optionsLoop [⟨214, 3, 0⟩, ⟨36, 2, 0⟩] (ByteSlice.ofList [10, 255, 238, 0, 60]) []
          = optionsLoop [⟨36, 2, 0⟩] ⟨[0, 60], []⟩ [("exportProtocolVersion", Value.uint8 10)]
      ∧ (optionsLoop [⟨214, 3, 0⟩, ⟨36, 2, 0⟩] (ByteSlice.ofList [10, 255, 238, 0, 60]) []).map
            (fun r => r.2)
          = some [("exportProtocolVersion", Value.uint8 10),
              ("flowActiveTimeout", Value.uint16 60)] :=
  ⟨by decide, by decide,
    (decodeSingleOption_first_byte (ByteSlice.ofList [10, 255, 238, 0, 60]) ⟨214, 3, 0⟩
      [⟨36, 2, 0⟩] [] 10 rfl (Or.inl rfl) (by decide) (by decide) rfl).2,
    by decide⟩

/-! ## Lemmas on panic-freedom of the value decoder -/

/-- A field that declares at least its decode width is decoded without a
panic, whatever the slice. -/
theorem decodeSingleOption_returns (bs : ByteSlice) (f : TemplateField) (o : Options)
    (hw : declaresDecodeWidth f = true) : ∃ o2, decodeSingleOption bs f o = some o2 := by
  by_cases hlt : bs.len < f.Length
  · exact ⟨o, by unfold decodeSingleOption; rw [if_pos hlt]⟩
  have hl : f.Length ≤ bs.len := Nat.le_of_not_lt hlt
  obtain ⟨e, l, en⟩ := f
  simp only [] at hl hlt
  unfold decodeSingleOption
  simp only []
  rw [if_neg hlt]
  by_cases hen : en = 0
  · subst hen
    simp only [if_true]
    by_cases h34 : e = 34
    · subst h34
      have hw2 : 4 ≤ l := by simpa [declaresDecodeWidth, decodeWidth] using hw
      exact Option.isSome_iff_exists.mp (by simp [sliceTo_Uint32_of_le bs l hw2 hl])
    by_cases h36 : e = 36
    · subst h36
      have hw2 : 2 ≤ l := by simpa [declaresDecodeWidth, decodeWidth] using hw
      exact Option.isSome_iff_exists.mp (by simp [sliceTo_Uint16_of_le bs l hw2 hl])
    by_cases h37 : e = 37
    · subst h37
      have hw2 : 2 ≤ l := by simpa [declaresDecodeWidth, decodeWidth] using hw
      exact Option.isSome_iff_exists.mp (by simp [sliceTo_Uint16_of_le bs l hw2 hl])
    by_cases h41 : e = 41
    · subst h41
      have hw2 : 8 ≤ l := by simpa [declaresDecodeWidth, decodeWidth] using hw
      exact Option.isSome_iff_exists.mp (by simp [sliceTo_Uint64_of_le bs l hw2 hl])
    by_cases h42 : e = 42
    · subst h42
      have hw2 : 8 ≤ l := by simpa [declaresDecodeWidth, decodeWidth] using hw
      exact Option.isSome_iff_exists.mp (by simp [sliceTo_Uint64_of_le bs l hw2 hl])
    by_cases h130 : e = 130
    · subst h130
      exact Option.isSome_iff_exists.mp (by simp [sliceTo_of_le_len bs l hl])
    by_cases h131 : e = 131
    · subst h131
      exact Option.isSome_iff_exists.mp (by simp [sliceTo_of_le_len bs l hl])
    by_cases h144 : e = 144
    · subst h144
      have hw2 : 4 ≤ l := by simpa [declaresDecodeWidth, decodeWidth] using hw
      exact Option.isSome_iff_exists.mp (by simp [sliceTo_Uint32_of_le bs l hw2 hl])
    by_cases h160 : e = 160
    · subst h160
      have hw2 : 8 ≤ l := by simpa [declaresDecodeWidth, decodeWidth] using hw
      exact Option.isSome_iff_exists.mp (by simp [sliceTo_Uint64_of_le bs l hw2 hl])
    by_cases h214 : e = 214
    · subst h214
      have hw2 : 1 ≤ l := by simpa [declaresDecodeWidth, decodeWidth] using hw
      obtain ⟨elems, spare⟩ := bs
      cases elems with
      | nil =>
        simp only [ByteSlice.len, List.length_nil] at hl
        omega
      | cons a rest => exact Option.isSome_iff_exists.mp (by simp [ByteSlice.index])
    by_cases h215 : e = 215
    · subst h215
      have hw2 : 1 ≤ l := by simpa [declaresDecodeWidth, decodeWidth] using hw
      obtain ⟨elems, spare⟩ := bs
      cases elems with
      | nil =>
        simp only [ByteSlice.len, List.length_nil] at hl
        omega
      | cons a rest => exact Option.isSome_iff_exists.mp (by simp [ByteSlice.index])
    exact ⟨o, by simp [h34, h36, h37, h41, h42, h130, h131, h144, h160, h214, h215]⟩
  · exact ⟨o, by simp [hen]⟩

/-- A value loop over fields that declare at least their decode widths
returns, whatever the slice. -/
theorem optionsLoop_returns (fs : List TemplateField) :
    ∀ (bs : ByteSlice) (o : Options), (∀ f ∈ fs, declaresDecodeWidth f = true) →
      ∃ r, optionsLoop fs bs o = some r := by
  induction fs with
  | nil =>
    intro bs o _
    exact ⟨(bs, o), rfl⟩
  | cons f fs ih =>
    intro bs o hw
    obtain ⟨o2, ho2⟩ := decodeSingleOption_returns bs f o (hw f (List.mem_cons_self f fs))
    rw [optionsLoop_cons, ho2, Option.some_bind]
    by_cases hlt : bs.len < f.Length
    · rw [if_pos hlt]
      exact ⟨_, rfl⟩
    · rw [if_neg hlt, sliceFrom_of_le_len _ _ (Nat.le_of_not_lt hlt), Option.some_bind]
      exact ih _ o2 (fun g hg => hw g (List.mem_cons_of_mem f hg))

/-! ## Theorems: panic-freedom of the value decoder -/

/-- C19: for every cached template in which each field declares a Length
of at least its decode width (4 for elements 34 and 144, 2 for 36 and 37,
8 for 41, 42 and 160, 1 for 214 and 215 of enterprise 0; any Length for
130, 131 and unrecognised fields) and for every data body, of any length
and capacity, `parseOptions` does not panic and returns success with an
`Options` map. -/
theorem parseOptions_returns (header : IpfixHeader) (payload : ByteSlice) (cache : Cache)
    (template : OptionsTemplate)
    (hcached : (cache.Get header.SetId).1 = some template)
    (hwidth : ∀ f ∈ template.walk, declaresDecodeWidth f = true) :
    ∃ options, parseOptions header payload cache
      = some ((cache.Get header.SetId).2, some options, true) := by
  unfold OptionsTemplate.walk at hwidth
  obtain ⟨⟨bs1, o1⟩, h1⟩ := optionsLoop_returns template.ScopeField payload []
    (fun f hf => hwidth f (List.mem_append_left _ hf))
  obtain ⟨⟨bs2, o2⟩, h2⟩ := optionsLoop_returns template.Field bs1 o1
    (fun f hf => hwidth f (List.mem_append_right _ hf))
  refine ⟨o2, ?_⟩
  unfold parseOptions
  rcases hg : cache.Get header.SetId with ⟨found, cache2⟩
  rw [hg] at hcached
  simp only [] at hcached
  subst hcached
  simp only [h1, h2, Option.bind_eq_bind, Option.some_bind]

/-- C19, witness: the template of `TEMPLATE_BYTES` and a data body of
three bytes. -/
theorem parseOptions_returns_witness :
    (testCache.Get (headerFor 512).SetId).1 = some TEST_TEMPLATE
      ∧ (∀ f ∈ TEST_TEMPLATE.walk, declaresDecodeWidth f = true)
      ∧ ∃ options, parseOptions (headerFor 512) (ByteSlice.ofList [0, 0, 7]) testCache
          = some ((testCache.Get (headerFor 512).SetId).2, some options, true) :=
  ⟨by decide, by decide,
    parseOptions_returns (headerFor 512) (ByteSlice.ofList [0, 0, 7]) testCache TEST_TEMPLATE
      (by decide) (by decide)⟩

/-! ## Lemmas on the template decoder -/

theorem decodeSingleTemplateField_plain (data spare : List Byte) (h4 : 4 ≤ data.length)
    (hid : beAt data 0 2 ≤ 0x8000) :
    decodeSingleTemplateField ⟨data, spare⟩
      = some (⟨beAt data 0 2, beAt data 2 2, 0⟩, 4) := by
  have hl : 4 ≤ (ByteSlice.mk data spare).len := h4
  unfold decodeSingleTemplateField
  rw [read_Uint16 _ 0 2 (by omega) (by omega), read_Uint16 _ 2 4 (by omega) (by omega)]
  simp only [Option.bind_eq_bind, Option.some_bind]
  rw [if_neg (by omega)]

theorem decodeSingleTemplateField_enterprise (data spare : List Byte) (h8 : 8 ≤ data.length)
    (hid : 0x8000 < beAt data 0 2) :
    decodeSingleTemplateField ⟨data, spare⟩
      = some (⟨beAt data 0 2 &&& 0x7fff, beAt data 2 2, beAt data 0 4⟩, 8) := by
  have hl : 8 ≤ (ByteSlice.mk data spare).len := h8
  unfold decodeSingleTemplateField
  rw [read_Uint16 _ 0 2 (by omega) (by omega), read_Uint16 _ 2 4 (by omega) (by omega),
    read_Uint32 _ 0 4 (by omega) (by omega)]
  simp only [Option.bind_eq_bind, Option.some_bind]
  rw [if_pos (show beAt data 0 2 > 0x8000 from hid)]

theorem templateFieldLoop_succ (i : Nat) (bs : ByteSlice) (acc : List TemplateField) :
    templateFieldLoop (i + 1) bs acc
      = (decodeSingleTemplateField bs).bind (fun r =>
          if bs.len < r.2 then some (acc ++ [r.1], bs)
          else (bs.sliceFrom r.2).bind (fun rest => templateFieldLoop i rest (acc ++ [r.1]))) :=
  rfl

theorem descriptorsPresent_succ (n : Nat) (data : List Byte)
    (h : descriptorsPresent (n + 1) data = true) :
    ∃ w, (w = 4 ∨ w = 8) ∧ w ≤ data.length ∧ (0x8000 ≤ beAt data 0 2 → w = 8)
      ∧ descriptorsPresent n (data.drop w) = true := by
  unfold descriptorsPresent at h
  by_cases hid : beAt data 0 2 < 0x8000
  · rw [if_pos hid, Bool.and_eq_true, decide_eq_true_eq] at h
    exact ⟨4, Or.inl rfl, h.1, fun hge => by omega, h.2⟩
  · rw [if_neg hid, Bool.and_eq_true, decide_eq_true_eq] at h
    exact ⟨8, Or.inr rfl, h.1, fun _ => rfl, h.2⟩

/-- A descriptor loop started `d` bytes before a point from which the
descriptors still to be read are all present (`d` a multiple of 4, zero at
the start of the body) reads that many descriptors without running out of
bytes, and ends at most as far into the body as the descriptors do. -/
theorem templateFieldLoop_present (b : Nat) (spare : List Byte) (a : Nat) :
    ∀ (cur : List Byte) (d : Nat) (acc : List TemplateField),
      d % 4 = 0 → d ≤ cur.length → descriptorsPresent (a + b) (cur.drop d) = true →
      ∃ fields rest d2,
        templateFieldLoop a ⟨cur, spare⟩ acc = some (acc ++ fields, ⟨rest, spare⟩)
          ∧ fields.length = a ∧ d2 % 4 = 0 ∧ d2 ≤ rest.length
          ∧ descriptorsPresent b (rest.drop d2) = true := by
  induction a with
  | zero =>
    intro cur d acc hd hle h
    rw [Nat.zero_add] at h
    exact ⟨[], cur, d, by simp [templateFieldLoop], rfl, hd, hle, h⟩
  | succ a ih =>
    intro cur d acc hd hle h
    rw [Nat.succ_add] at h
    obtain ⟨w, hw, hwlen, hwent, hrest⟩ := descriptorsPresent_succ (a + b) (cur.drop d) h
    rw [List.length_drop] at hwlen
    rw [List.drop_drop] at hrest
    by_cases hc : 0x8000 < beAt cur 0 2
    · have h8 : 8 ≤ cur.length := by
        by_cases hd0 : d = 0
        · subst hd0
          rw [List.drop_zero] at hwent
          have := hwent (by omega)
          omega
        · omega
      have hd2 : 8 + (w + d - 8) = d + w := by
        by_cases hd0 : d = 0
        · subst hd0
          rw [List.drop_zero] at hwent
          have := hwent (by omega)
          omega
        · omega
      have hrest2 : descriptorsPresent (a + b) ((cur.drop 8).drop (w + d - 8)) = true := by
        rw [List.drop_drop, hd2]
        exact hrest
      obtain ⟨fields, rest, d3, hloop, hlen, hd3, hle3, hpres⟩ :=
        ih (cur.drop 8) (w + d - 8)
          (acc ++ [⟨beAt cur 0 2 &&& 0x7fff, beAt cur 2 2, beAt cur 0 4⟩])
          (by omega) (by rw [List.length_drop]; omega) hrest2
      refine ⟨⟨beAt cur 0 2 &&& 0x7fff, beAt cur 2 2, beAt cur 0 4⟩ :: fields, rest, d3, ?_,
        by simp [hlen], hd3, hle3, hpres⟩
      rw [templateFieldLoop_succ, decodeSingleTemplateField_enterprise cur spare h8 hc,
        Option.some_bind]
      simp only []
      rw [if_neg (show ¬ (ByteSlice.mk cur spare).len < 8 from Nat.not_lt.mpr h8),
        sliceFrom_of_le_len _ 8 (show 8 ≤ (ByteSlice.mk cur spare).len from h8),
        Option.some_bind, hloop, List.append_assoc]
      rfl
    · have h4 : 4 ≤ cur.length := by omega
      have hd2 : 4 + (w + d - 4) = d + w := by omega
      have hrest2 : descriptorsPresent (a + b) ((cur.drop 4).drop (w + d - 4)) = true := by
        rw [List.drop_drop, hd2]
        exact hrest
      obtain ⟨fields, rest, d3, hloop, hlen, hd3, hle3, hpres⟩ :=
        ih (cur.drop 4) (w + d - 4) (acc ++ [⟨beAt cur 0 2, beAt cur 2 2, 0⟩])
          (by omega) (by rw [List.length_drop]; omega) hrest2
      refine ⟨⟨beAt cur 0 2, beAt cur 2 2, 0⟩ :: fields, rest, d3, ?_,
        by simp [hlen], hd3, hle3, hpres⟩
      rw [templateFieldLoop_succ, decodeSingleTemplateField_plain cur spare h4 (by omega),
        Option.some_bind]
      simp only []
      rw [if_neg (show ¬ (ByteSlice.mk cur spare).len < 4 from Nat.not_lt.mpr h4),
        sliceFrom_of_le_len _ 4 (show 4 ≤ (ByteSlice.mk cur spare).len from h4),
        Option.some_bind, hloop, List.append_assoc]
      rfl

/-- What `parseOptionsTemplate` does with a body longer than 26 bytes, the
sub-header read as big-endian values of the body. -/
theorem parseOptionsTemplate_of_long (header : IpfixHeader) (payload : ByteSlice)
    (cache : Cache) (hlen : 26 < payload.len) :
    parseOptionsTemplate header payload cache
      = (templateFieldLoop (beAt payload.elems 4 2)
            ⟨payload.elems.drop 6, payload.spare⟩ []).bind (fun r1 =>
          (templateFieldLoop
              ((beAt payload.elems 2 2 + 2 ^ 16 - beAt payload.elems 4 2) % 2 ^ 16)
              r1.2 []).bind (fun r2 =>
            some (cache.Add (beAt payload.elems 0 2)
              ⟨beAt payload.elems 0 2, beAt payload.elems 2 2, r2.1,
               beAt payload.elems 4 2, r1.1⟩, none, true))) := by
  unfold parseOptionsTemplate
  rw [if_neg (show ¬ payload.len ≤ 26 by omega), read_Uint16 _ 0 2 (by omega) (by omega),
    read_Uint16 _ 2 4 (by omega) (by omega), read_Uint16 _ 4 6 (by omega) (by omega),
    sliceFrom_of_le_len _ 6 (by omega)]
  rfl

/-- Whatever `parseOptionsTemplate` returns carries the nil result, and the
success indicator exactly when the body is longer than 26 bytes. -/
theorem parseOptionsTemplate_result (header : IpfixHeader) (payload : ByteSlice)
    (cache : Cache) (out : Outcome)
    (h : parseOptionsTemplate header payload cache = some out) :
    out.2.1 = none ∧ (out.2.2 = true ↔ 26 < payload.len) := by
  by_cases hlen : 26 < payload.len
  · rw [parseOptionsTemplate_of_long header payload cache hlen] at h
    rcases hl1 : templateFieldLoop (beAt payload.elems 4 2)
        ⟨payload.elems.drop 6, payload.spare⟩ [] with _ | r1
    · rw [hl1] at h
      cases h
    · rw [hl1, Option.some_bind] at h
      rcases hl2 : templateFieldLoop
          ((beAt payload.elems 2 2 + 2 ^ 16 - beAt payload.elems 4 2) % 2 ^ 16) r1.2 []
        with _ | r2
      · rw [hl2] at h
        cases h
      · rw [hl2, Option.some_bind] at h
        cases h
        exact ⟨rfl, by simp [hlen]⟩
  · unfold parseOptionsTemplate at h
    rw [if_pos (by omega)] at h
    cases h
    exact ⟨rfl, by simp [hlen]⟩

theorem Cache.Get_Add (c : Cache) (key : Nat) (value : OptionsTemplate) (h : 0 < c.size) :
    ((c.Add key value).Get key).1 = some value := by
  have hhead : ∀ (c2 : Cache) (rest : List (Nat × OptionsTemplate)),
      c2.items = (key, value) :: rest → (c2.Get key).1 = some value := by
    intro c2 rest hitems
    unfold Cache.Get
    rw [hitems]
    simp
  unfold Cache.Add
  by_cases hany : c.items.any (fun e => e.1 == key) = true
  · rw [if_pos hany]
    exact hhead _ _ rfl
  · rw [if_neg hany]
    by_cases hfull : c.items.length + 1 > c.size
    · rw [if_pos hfull]
      cases hitems : c.items with
      | nil =>
        rw [hitems] at hfull
        simp only [List.length_nil] at hfull
        omega
      | cons x xs => exact hhead _ ((x :: xs).dropLast) (by simp [List.dropLast])
    · rw [if_neg hfull]
      exact hhead _ _ rfl

theorem beAt_two_lt (data : List Byte) (offset : Nat) : beAt data offset 2 < 2 ^ 16 := by
  unfold beAt
  rcases data.drop offset with _ | ⟨a, _ | ⟨b, rest⟩⟩
  · simp [beValue]
  · have ha := a.isLt
    simp only [beValue, List.take_succ_cons, List.take_nil, List.foldl_cons, List.foldl_nil]
    omega
  · have ha := a.isLt
    have hb := b.isLt
    simp only [beValue, List.take_succ_cons, List.take_zero, List.foldl_cons, List.foldl_nil]
    omega

/-! ## Theorems: results of the template decoder -/

/-- C16: for every Version-10 message with SetId 3 on which `parsePayload`
returns, the result is the nil map (zero entries), and the success
indicator is true exactly when the body passes the size check of the
template decoder (more than 26 bytes after the 20-byte preamble). -/
theorem parsePayload_template_result (payload : ByteSlice) (cache : Cache) (out : Outcome)
    (hlen : 20 < payload.len) (hversion : beAt payload.elems 0 2 = 10)
    (hset : beAt payload.elems 16 2 = 3)
    (hreturn : parsePayload payload cache = some out) :
    out.2.1 = none ∧ (out.2.2 = true ↔ 46 < payload.len) := by
  rw [parsePayload_of_header payload cache (Nat.le_of_lt hlen), if_neg (by omega),
    if_neg (show ¬ payload.len ≤ 20 by omega), if_pos hset] at hreturn
  have h := parseOptionsTemplate_result _ _ _ _ hreturn
  have hbody : (ByteSlice.mk (payload.elems.drop 20) payload.spare).len = payload.len - 20 := by
    simp [ByteSlice.len]
  rw [hbody] at h
  refine ⟨h.1, ?_⟩
  rw [h.2]
  omega

/-- C16, witness: `TEMPLATE_BYTES` against a fresh cache returns success
with the nil result. -/
theorem parsePayload_template_result_witness :
    20 < (ByteSlice.ofList TEMPLATE_BYTES).len
      ∧ beAt TEMPLATE_BYTES 0 2 = 10
      ∧ beAt TEMPLATE_BYTES 16 2 = 3
      ∧ parsePayload (ByteSlice.ofList TEMPLATE_BYTES) (Cache.New 10240)
          = some (testCache, none, true)
      ∧ ((none : Option Options) = none
          ∧ (true = true ↔ 46 < (ByteSlice.ofList TEMPLATE_BYTES).len)) :=
  ⟨by decide, by decide, by decide, by decide,
    parsePayload_template_result (ByteSlice.ofList TEMPLATE_BYTES) (Cache.New 10240)
      (testCache, none, true) (by decide) (by decide) (by decide) (by decide)⟩

/-- C17, amended: `parseOptionsTemplate` rejects for size (failure
indicator, cache unchanged) exactly the bodies of 26 bytes or fewer; every
body of 27 bytes or more passes the size check, so that whatever the
decoder returns is the success indicator with the nil result, and when
ScopeFieldCount <= FieldCount and the FieldCount declared descriptors are
all present the body is decoded and stored: the cache receives, under
TemplateId, a template with the declared counts, ScopeFieldCount scope
fields and FieldCount - ScopeFieldCount regular fields. -/
theorem parseOptionsTemplate_size_check (header : IpfixHeader) (payload : ByteSlice)
    (cache : Cache) :
    (payload.len ≤ 26 → parseOptionsTemplate header payload cache = some (cache, none, false))
      ∧ (26 < payload.len → ∀ out : Outcome,
          parseOptionsTemplate header payload cache = some out → out.2 = (none, true))
      ∧ (26 < payload.len → beAt payload.elems 4 2 ≤ beAt payload.elems 2 2 →
          descriptorsPresent (beAt payload.elems 2 2) (payload.elems.drop 6) = true →
          ∃ t : OptionsTemplate,
            parseOptionsTemplate header payload cache
                = some (cache.Add (beAt payload.elems 0 2) t, none, true)
              ∧ t.TemplateId = beAt payload.elems 0 2
              ∧ t.FieldCount = beAt payload.elems 2 2
              ∧ t.ScopeFieldCount = beAt payload.elems 4 2
              ∧ t.ScopeField.length = beAt payload.elems 4 2
              ∧ t.Field.length = beAt payload.elems 2 2 - beAt payload.elems 4 2
              ∧ (0 < cache.size →
                  ((cache.Add (beAt payload.elems 0 2) t).Get (beAt payload.elems 0 2)).1
                    = some t)) := by
  refine ⟨fun hshort => ?_, fun hlong out hout => ?_, fun hlong hcount hpresent => ?_⟩
  · unfold parseOptionsTemplate
    rw [if_pos hshort]
  · have h := parseOptionsTemplate_result header payload cache out hout
    have h2 : out.2.2 = true := h.2.mpr hlong
    exact Prod.ext h.1 h2
  · have hfc := beAt_two_lt payload.elems 2
    have hm : (beAt payload.elems 2 2 + 2 ^ 16 - beAt payload.elems 4 2) % 2 ^ 16
        = beAt payload.elems 2 2 - beAt payload.elems 4 2 := by
      omega
    have hsplit : beAt payload.elems 2 2
        = beAt payload.elems 4 2 + (beAt payload.elems 2 2 - beAt payload.elems 4 2) := by
      omega
    rw [hsplit] at hpresent
    obtain ⟨scope, rest, d2, hloop1, hlen1, hd2, hle2, hpresent2⟩ :=
      templateFieldLoop_present (beAt payload.elems 2 2 - beAt payload.elems 4 2)
        payload.spare (beAt payload.elems 4 2) (payload.elems.drop 6) 0 [] rfl
        (Nat.zero_le _) (by rw [List.drop_zero]; exact hpresent)
    obtain ⟨fields, rest2, _, hloop2, hlen2, _⟩ :=
      templateFieldLoop_present 0 payload.spare
        (beAt payload.elems 2 2 - beAt payload.elems 4 2) rest d2 [] hd2 hle2 hpresent2
    refine ⟨⟨beAt payload.elems 0 2, beAt payload.elems 2 2, fields,
      beAt payload.elems 4 2, scope⟩, ?_, rfl, rfl, rfl, hlen1, hlen2, ?_⟩
    · rw [parseOptionsTemplate_of_long header payload cache hlong, hloop1, Option.some_bind, hm]
      simp only [List.nil_append]
      rw [hloop2, Option.some_bind]
      rfl
    · intro hsize
      exact Cache.Get_Add cache _ _ hsize

/-- C17, amended, witness: the 30-byte body `ELEMENT_ZERO_TEMPLATE_BODY`,
which holds the five descriptors it declares, one of them with raw
ElementId 0x8000, passes the size check and is decoded and stored with
five regular fields. -/
theorem parseOptionsTemplate_size_check_witness :
    26 < (ByteSlice.ofList ELEMENT_ZERO_TEMPLATE_BODY).len
      ∧ beAt ELEMENT_ZERO_TEMPLATE_BODY 4 2 ≤ beAt ELEMENT_ZERO_TEMPLATE_BODY 2 2
      ∧ descriptorsPresent (beAt ELEMENT_ZERO_TEMPLATE_BODY 2 2)
          (ELEMENT_ZERO_TEMPLATE_BODY.drop 6) = true
      ∧ descriptorsPresent (beAt (TEMPLATE_BYTES.drop 20) 2 2)
          ((TEMPLATE_BYTES.drop 20).drop 6) = true
      ∧ ∃ t : OptionsTemplate,
          parseOptionsTemplate (headerFor 3) (ByteSlice.ofList ELEMENT_ZERO_TEMPLATE_BODY)
              (Cache.New 10240)
            = some ((Cache.New 10240).Add (beAt ELEMENT_ZERO_TEMPLATE_BODY 0 2) t, none, true)
          ∧ t.TemplateId = beAt ELEMENT_ZERO_TEMPLATE_BODY 0 2
          ∧ t.FieldCount = beAt ELEMENT_ZERO_TEMPLATE_BODY 2 2
          ∧ t.ScopeFieldCount = beAt ELEMENT_ZERO_TEMPLATE_BODY 4 2
          ∧ t.ScopeField.length = beAt ELEMENT_ZERO_TEMPLATE_BODY 4 2
          ∧ t.Field.length
              = beAt ELEMENT_ZERO_TEMPLATE_BODY 2 2 - beAt ELEMENT_ZERO_TEMPLATE_BODY 4 2
          ∧ (0 < (Cache.New 10240).size →
              (((Cache.New 10240).Add (beAt ELEMENT_ZERO_TEMPLATE_BODY 0 2) t).Get
                (beAt ELEMENT_ZERO_TEMPLATE_BODY 0 2)).1 = some t) :=
  ⟨by decide, by decide, by decide, by decide,
    (parseOptionsTemplate_size_check (headerFor 3)
      (ByteSlice.ofList ELEMENT_ZERO_TEMPLATE_BODY) (Cache.New 10240)).2.2
      (by decide) (by decide) (by decide)⟩

end Ipfix
